import Mathlib

/-!
Verification of the Hera Juno-60 DSP plugin (move-anything-hera).

Shallow embedding of `src/dsp/hera_plugin.cpp` (the file `src/unnamed/part_001`
of the repository snapshot).  C `float` arithmetic is embedded as exact rational
arithmetic (`ℚ`); the transcendental `exp2`/`powf(2, ·)` is threaded through as
an explicit function parameter `e : ℚ → ℚ`, so every statement about the
exponential pitch/cutoff maths is a statement about the *structure* of the
expression fed to `exp2`.  Components of the engine whose sources are not part
of the snapshot (HeraEnvelope, HeraLFOWithEnvelope, SmoothValue, HeraVCF
internals) are modelled from the specification, as marked in their doc
comments.
-/

/- ===================================================================
   Generic helpers
   =================================================================== -/

/-- Two-sided clamp written the way the C sources write it
(`if (v < lo) v = lo; if (v > hi) v = hi;`). -/
def clampQ (lo hi v : ℚ) : ℚ :=
  if v < lo then lo else if v > hi then hi else v

/-- C `(int)` cast of a float: truncation toward zero. -/
def truncQ (v : ℚ) : ℤ :=
  if 0 ≤ v then ⌊v⌋ else -⌊-v⌋

/-- Index of the first element satisfying `p`, mirroring a C
`for (i = 0; i < n; i++) if (p(a[i])) return i;` scan. -/
def firstIdx (p : α → Bool) : List α → Option ℕ
  | [] => none
  | x :: xs => if p x then some 0 else (firstIdx p xs).map (· + 1)

theorem firstIdx_some_spec (p : α → Bool) (d : α) :
    ∀ (l : List α) (i : ℕ), firstIdx p l = some i →
      i < l.length ∧ p (l.getD i d) = true ∧ ∀ j, j < i → p (l.getD j d) = false
  | [], i => by simp [firstIdx]
  | x :: xs, i => by
    intro h
    by_cases hx : p x
    · simp [firstIdx, hx] at h
      subst h
      simpa using hx
    · simp [firstIdx, hx] at h
      obtain ⟨i', hi', rfl⟩ := h
      obtain ⟨h1, h2, h3⟩ := firstIdx_some_spec p d xs i' hi'
      refine ⟨by simpa using h1, by simpa using h2, ?_⟩
      intro j hj
      cases j with
      | zero => simpa using hx
      | succ j => exact (by simpa using h3 j (by omega))

theorem firstIdx_none_spec (p : α → Bool) (d : α) :
    ∀ (l : List α), firstIdx p l = none →
      ∀ j, j < l.length → p (l.getD j d) = false
  | [] => by simp
  | x :: xs => by
    intro h j hj
    by_cases hx : p x
    · simp [firstIdx, hx] at h
    · simp [firstIdx, hx] at h
      cases j with
      | zero => simpa using hx
      | succ j =>
        exact (by simpa using firstIdx_none_spec p d xs h j (by simpa using hj))

theorem firstIdx_isSome_of_exists (p : α → Bool) (d : α) (l : List α)
    (h : ∃ j, j < l.length ∧ p (l.getD j d) = true) :
    ∃ i, firstIdx p l = some i := by
  cases hf : firstIdx p l with
  | none =>
    obtain ⟨j, hj, hpj⟩ := h
    have := firstIdx_none_spec p d l hf j hj
    rw [this] at hpj
    exact absurd hpj (by simp)
  | some i => exact ⟨i, rfl⟩

/- ===================================================================
   Envelope state machine.

   Modelled from the spec: the file Engine/HeraEnvelope.h is not part of
   the source snapshot (only its callers are).  Spec §4.1: states
   Idle → Attack → Decay → Sustain → Release → Idle; `noteOn()` restarts
   at Attack from any state; `noteOff()` moves Attack/Decay/Sustain to
   Release; `shutdown()` is an immediate transition to Idle from any
   state; `isActive()` iff state ≠ Idle; `isReleased()` iff state is
   Release or Idle.  Per-sample output levels are not needed by the
   claims and are not modelled.
   =================================================================== -/

inductive EnvState
  | idle
  | attack
  | decay
  | sustain
  | release
deriving DecidableEq

/-- `HeraEnvelope::noteOn` (modelled from the spec): restart at Attack. -/
def envNoteOn (_ : EnvState) : EnvState := .attack

/-- `HeraEnvelope::noteOff` (modelled from the spec): Attack/Decay/Sustain
go to Release; Release stays; Idle stays. -/
def envNoteOff : EnvState → EnvState
  | .idle => .idle
  | _ => .release

/-- `HeraEnvelope::shutdown` (modelled from the spec): immediate Idle. -/
def envShutdown (_ : EnvState) : EnvState := .idle

/-- `HeraEnvelope::reset` (modelled from the spec): back to Idle. -/
def envReset (_ : EnvState) : EnvState := .idle

/-- `HeraEnvelope::isActive` (modelled from the spec): state ≠ Idle. -/
def envIsActive : EnvState → Bool
  | .idle => false
  | _ => true

/-- `HeraEnvelope::isReleased` (modelled from the spec): Release or Idle. -/
def envIsReleased : EnvState → Bool
  | .idle => true
  | .release => true
  | _ => false

/- ===================================================================
   One-pole parameter smoother.

   Modelled from the spec: Engine/SmoothValue.h is not part of the source
   snapshot.  Spec §2: a single-pole exponential smoother converting a
   stepped control value into a per-sample ramp; each `getNextValue()`
   call moves the current value one exponential step toward the target.
   The per-sample coefficient is an unspecified constant in (0,1).
   =================================================================== -/

structure OnePoleSmoothValue where
  current : ℚ
  target : ℚ
  coeff : ℚ
deriving DecidableEq

/-- Smoothing coefficient for a 10 ms time constant at 44100 Hz (modelled
from the spec; the exact value is irrelevant to every claim). -/
def smoothK : ℚ := 99 / 100

/-- `OnePoleSmoothValue::setTargetValue` (modelled from the spec). -/
def OnePoleSmoothValue.setTargetValue (s : OnePoleSmoothValue) (v : ℚ) : OnePoleSmoothValue :=
  { s with target := v }

/-- `OnePoleSmoothValue::setCurrentAndTargetValue` (modelled from the spec). -/
def OnePoleSmoothValue.setCurrentAndTargetValue (s : OnePoleSmoothValue) (v : ℚ) : OnePoleSmoothValue :=
  { s with current := v, target := v }

/-- One `getNextValue()` step (modelled from the spec): exponential
approach of the current value toward the target. -/
def OnePoleSmoothValue.next (s : OnePoleSmoothValue) : OnePoleSmoothValue :=
  { s with current := s.target + (s.current - s.target) * s.coeff }

/-- The value returned by the `(i+1)`-th `getNextValue()` call, i.e. the
smoothed value at sample index `i` of a block. -/
def OnePoleSmoothValue.valueAt (s : OnePoleSmoothValue) (i : ℕ) : ℚ :=
  (OnePoleSmoothValue.next^[i + 1] s).current

/- ===================================================================
   Shared LFO.

   Modelled from the spec: Engine/HeraLFOWithEnvelope.h is not part of
   the source snapshot.  Spec §4.2: the engine only triggers (`noteOn`,
   starting the delay+attack ramp from 0) and forcefully resets
   (`shutdown`/`noteOff`) this component; the ramp advances while the
   LFO is running.  Only the trigger bookkeeping is modelled; `ramp` is
   an abstract progress counter for the delay+attack window.
   =================================================================== -/

structure LFOState where
  running : Bool
  ramp : ℕ
deriving DecidableEq

/-- `HeraLFOWithEnvelope::noteOn` (modelled from the spec): start the
delay+attack ramp from 0. -/
def LFOState.trigger : LFOState := { running := true, ramp := 0 }

/-- `HeraLFOWithEnvelope::shutdown` / `noteOff` (modelled from the spec):
forceful reset; the engine never uses a tapering release on the LFO. -/
def LFOState.shut : LFOState := { running := false, ramp := 0 }

/-- One block of `processBlock` (modelled from the spec): the
delay+attack ramp advances while the LFO is running. -/
def LFOState.advance (l : LFOState) : LFOState :=
  if l.running then { l with ramp := l.ramp + 1 } else l

/- ===================================================================
   Voice state (struct HeraVoiceState, hera_plugin.cpp lines 134-187).
   The per-voice DSP substates that no claim observes (HeraDCO phase
   memory, HeraVCF stage memory) are not carried; the DCO's frequency
   input (`dco.setFrequency`) is carried as `dcoFrequency`.
   =================================================================== -/

structure Voice where
  active : Bool
  note : ℤ
  frequency : ℚ
  velocity : ℚ
  pitchBendFactor : ℚ
  vcaType : ℤ
  pwmMod : ℤ
  normalEnv : EnvState
  gateEnv : EnvState
  smoothPWMDepth : OnePoleSmoothValue
  dcoFrequency : ℚ
deriving DecidableEq

/-- `HeraVoiceState` default constructor. -/
def defaultVoice : Voice where
  active := false
  note := -1
  frequency := 440
  velocity := 0
  pitchBendFactor := 1
  vcaType := 0
  pwmMod := 0
  normalEnv := .idle
  gateEnv := .idle
  smoothPWMDepth := { current := 0, target := 0, coeff := smoothK }
  dcoFrequency := 0

/-- `HeraVoiceState::getCurrentEnvelope` (read side): the envelope that
governs the voice, selected by the amplitude-path mode. -/
def Voice.governingEnv (v : Voice) : EnvState :=
  if v.vcaType = 0 then v.normalEnv else v.gateEnv

/-- Apply a transition to the governing envelope
(`voice.getCurrentEnvelope().f()`). -/
def Voice.mapGoverningEnv (v : Voice) (f : EnvState → EnvState) : Voice :=
  if v.vcaType = 0 then { v with normalEnv := f v.normalEnv }
  else { v with gateEnv := f v.gateEnv }

/-- `HeraVoiceState::isReleased` (lines 183-186). -/
def Voice.isReleased (v : Voice) : Bool :=
  if v.vcaType = 0 then envIsReleased v.normalEnv else envIsReleased v.gateEnv

/- ===================================================================
   Parameter catalog
   =================================================================== -/

/-- One entry of `g_shadow_params` (key, engine parameter index, min, max). -/
structure PDef where
  key : String
  index : ℕ
  minVal : ℚ
  maxVal : ℚ
deriving DecidableEq

/-- The static catalog `g_shadow_params` (lines 262-302). -/
def paramDefs : List PDef :=
  [ ⟨"saw_level", 4, 0, 1⟩
  , ⟨"pulse_level", 5, 0, 1⟩
  , ⟨"sub_level", 6, 0, 1⟩
  , ⟨"noise_level", 7, 0, 1⟩
  , ⟨"pwm_depth", 2, 0, 1⟩
  , ⟨"pwm_mod", 3, 0, 2⟩
  , ⟨"pitch_range", 8, 0, 2⟩
  , ⟨"pitch_mod", 9, 0, 1⟩
  , ⟨"vcf_cutoff", 10, 0, 1⟩
  , ⟨"vcf_resonance", 11, 0, 1⟩
  , ⟨"vcf_env", 12, -1, 1⟩
  , ⟨"vcf_lfo", 13, 0, 1⟩
  , ⟨"vcf_key", 14, 0, 1⟩
  , ⟨"vcf_bend", 15, 0, 1⟩
  , ⟨"vca_depth", 0, 0, 1⟩
  , ⟨"vca_type", 1, 0, 1⟩
  , ⟨"attack", 16, 0, 1⟩
  , ⟨"decay", 17, 0, 1⟩
  , ⟨"sustain", 18, 0, 1⟩
  , ⟨"release", 19, 0, 1⟩
  , ⟨"lfo_rate", 21, 0, 1⟩
  , ⟨"lfo_delay", 22, 0, 1⟩
  , ⟨"lfo_trigger", 20, 0, 1⟩
  , ⟨"hpf", 23, 0, 1⟩
  , ⟨"chorus_i", 24, 0, 1⟩
  , ⟨"chorus_ii", 25, 0, 1⟩ ]

/-- `g_param_defaults` (lines 232-259). -/
def g_param_defaults : List ℚ :=
  [ 1/2, 0, 1/2, 0, 1, 0, 0, 0, 1, 0,
    1/2, 0, 0, 0, 0, 0, 0, 0, 0, 0,
    1, 0, 0, 0, 0, 0 ]

/-- `kHeraNumParameters` (line 108). -/
def kHeraNumParameters : ℕ := 26

/-- `MAX_VOICES` (line 76). -/
def MAX_VOICES : ℕ := 6

/- ===================================================================
   Engine instance state (hera_instance_t, lines 308-364).
   Fields consumed only by unmodelled DSP consumers (vca, hpFilter,
   chorus, the scratch render buffers) are not carried; the per-block
   audio computations over those buffers are modelled as the standalone
   loop functions further below.
   =================================================================== -/

structure Engine where
  params : List ℚ
  voices : List Voice
  lfo : LFOState
  lfoMode : ℤ
  vcaType : ℤ
  pitchFactor : ℚ
  pitchBendSemitones : ℚ
  smoothPitchModDepth : OnePoleSmoothValue
  smoothCutoff : OnePoleSmoothValue
  smoothResonance : OnePoleSmoothValue
  smoothVCFEnvModDepth : OnePoleSmoothValue
  smoothVCFLFOModDepth : OnePoleSmoothValue
  smoothVCFKeyboardModDepth : OnePoleSmoothValue
  smoothVCFBendDepth : OnePoleSmoothValue
  presets : List (List ℚ)
  preset_count : ℤ
  current_preset : ℤ
  octave_transpose : ℤ
  volume : ℚ
deriving DecidableEq

/-- `midi_to_freq` (lines 370-372): `440 * 2^((note-69)/12)`, with `e`
standing for `powf(2.0f, ·)`. -/
def midi_to_freq (e : ℚ → ℚ) (note : ℤ) : ℚ :=
  440 * e (((note : ℚ) - 69) / 12)

/-- The non-store side effects of `apply_param` (the `switch` body,
lines 383-483), restricted to the consumers the model carries.  Setter
calls into unmodelled DSP objects (dco levels, envelope timings, vca,
hpf, chorus, lfo rate/delay) change no modelled field. -/
def apply_param_side (inst : Engine) (idx : ℕ) (value : ℚ) : Engine :=
  { inst with
    vcaType := if idx = 1 then truncQ value else inst.vcaType
    voices :=
      if idx = 1 then
        inst.voices.map (fun v => { v with vcaType := truncQ value })
      else if idx = 2 then
        inst.voices.map (fun v =>
          { v with smoothPWMDepth := v.smoothPWMDepth.setTargetValue value })
      else if idx = 3 then
        inst.voices.map (fun v => { v with pwmMod := truncQ value })
      else inst.voices
    pitchFactor :=
      if idx = 8 then
        let i := max 0 (min 2 (truncQ value))
        if i = 0 then 1/2 else if i = 1 then 1 else 2
      else inst.pitchFactor
    smoothPitchModDepth :=
      if idx = 9 then inst.smoothPitchModDepth.setTargetValue value
      else inst.smoothPitchModDepth
    smoothCutoff :=
      if idx = 10 then inst.smoothCutoff.setTargetValue value
      else inst.smoothCutoff
    smoothResonance :=
      if idx = 11 then inst.smoothResonance.setTargetValue value
      else inst.smoothResonance
    smoothVCFEnvModDepth :=
      if idx = 12 then inst.smoothVCFEnvModDepth.setTargetValue value
      else inst.smoothVCFEnvModDepth
    smoothVCFLFOModDepth :=
      if idx = 13 then inst.smoothVCFLFOModDepth.setTargetValue value
      else inst.smoothVCFLFOModDepth
    smoothVCFKeyboardModDepth :=
      if idx = 14 then inst.smoothVCFKeyboardModDepth.setTargetValue value
      else inst.smoothVCFKeyboardModDepth
    smoothVCFBendDepth :=
      if idx = 15 then inst.smoothVCFBendDepth.setTargetValue value
      else inst.smoothVCFBendDepth
    lfo :=
      if idx = 20 ∧ inst.lfoMode ≠ truncQ value then LFOState.shut
      else inst.lfo
    lfoMode := if idx = 20 then truncQ value else inst.lfoMode }

/-- `apply_param` (lines 378-484): bounds-check the index, store the raw
value in the parameter store, and distribute it to the consumer (the
`switch` body never reads or writes the store again). -/
def apply_param (inst : Engine) (idx : ℕ) (value : ℚ) : Engine :=
  if idx < kHeraNumParameters then
    { apply_param_side inst idx value with params := inst.params.set idx value }
  else inst

/-- The parameter republishing loop of `apply_preset` (lines 598-600):
`apply_preset_params vals s n` applies `apply_param(i, vals[i])` for
`i = 0 .. n-1` in order (no clamping anywhere on this path). -/
def apply_preset_params (vals : List ℚ) (s : Engine) : ℕ → Engine
  | 0 => s
  | n + 1 => apply_param (apply_preset_params vals s n) n (vals.getD n 0)

/-- `apply_preset` (lines 591-601): guard the index, record it, and
republish every preset value through `apply_param` (no clamping). -/
def apply_preset (inst : Engine) (preset_idx : ℤ) : Engine :=
  if 0 ≤ preset_idx ∧ preset_idx < inst.preset_count then
    apply_preset_params (inst.presets.getD preset_idx.toNat [])
      { inst with current_preset := preset_idx } kHeraNumParameters
  else inst

/- ===================================================================
   Voice management (lines 607-683)
   =================================================================== -/

/-- `has_unreleased_voices` (lines 607-613). -/
def has_unreleased_voices (inst : Engine) : Bool :=
  inst.voices.any (fun v => v.active && !v.isReleased)

/-- `find_free_voice` (lines 615-628). -/
def find_free_voice (voices : List Voice) : ℕ :=
  match firstIdx (fun v => !v.active) voices with
  | some i => i
  | none =>
    match firstIdx (fun v => v.isReleased) voices with
    | some i => i
    | none => 0

/-- The field assignments of `note_on` through the `voice` reference
(lines 634-638): the chosen slot becomes active with the new note data
and the engine's current amplitude-path mode, keeping its previous
envelope states. -/
def note_on_assigned (e : ℚ → ℚ) (inst : Engine) (note : ℤ) (velocity : ℚ) :
    Voice :=
  { inst.voices.getD (find_free_voice inst.voices) defaultVoice with
    active := true
    note := note
    frequency := midi_to_freq e note
    velocity := velocity
    vcaType := inst.vcaType }

/-- `note_on` (lines 630-656).  Field assignments through the `voice`
reference happen before the LFO auto-trigger check, therefore the check
sees the freshly assigned slot as active with its pre-retrigger
envelopes; the governing envelope is restarted only afterwards. -/
def note_on (e : ℚ → ℚ) (inst : Engine) (note : ℤ) (velocity : ℚ) : Engine :=
  let vi := find_free_voice inst.voices
  let v1 := note_on_assigned e inst note velocity
  let s1 := { inst with voices := inst.voices.set vi v1 }
  let s2 :=
    if s1.lfoMode = 1 ∧ ¬has_unreleased_voices s1 then
      { s1 with lfo := LFOState.trigger }
    else s1
  let v2 := (s2.voices.getD vi defaultVoice).mapGoverningEnv envNoteOn
  let v3 := { v2 with
    dcoFrequency := v2.frequency
    smoothPWMDepth :=
      v2.smoothPWMDepth.setCurrentAndTargetValue v2.smoothPWMDepth.target }
  { s2 with voices := s2.voices.set vi v3 }

/-- The matching predicate of the `note_off` scan (line 661). -/
def noteOffMatch (note : ℤ) (v : Voice) : Bool :=
  v.active && (v.note == note) && !v.isReleased

/-- `note_off` (lines 658-672): release the first matching voice, then
(in key-trigger mode) shut the LFO down when no held voice remains; the
loop `break`s after the first match. -/
def note_off (inst : Engine) (note : ℤ) : Engine :=
  match firstIdx (noteOffMatch note) inst.voices with
  | none => inst
  | some i =>
    let v := (inst.voices.getD i defaultVoice).mapGoverningEnv envNoteOff
    let s1 := { inst with voices := inst.voices.set i v }
    if s1.lfoMode = 1 ∧ ¬has_unreleased_voices s1 then
      { s1 with lfo := LFOState.shut }
    else s1

/-- `all_notes_off` (lines 674-683). -/
def all_notes_off (inst : Engine) : Engine :=
  { inst with voices :=
      inst.voices.map (fun v =>
        if v.active then
          { v.mapGoverningEnv envShutdown with active := false, note := -1 }
        else v) }

/- ===================================================================
   MIDI dispatch (v2_on_midi, lines 862-919)
   =================================================================== -/

/-- The note transposition and clamping applied to note-on/note-off
messages (lines 871-876). -/
def transposeNote (inst : Engine) (data1 : ℕ) : ℤ :=
  let n : ℤ := (data1 : ℤ) + inst.octave_transpose * 12
  if n < 0 then 0 else if n > 127 then 127 else n

/-- The `0xE0` pitch-bend branch (lines 904-917): update
`pitchBendSemitones` from the raw 14-bit value, then set every active
voice's DCO frequency to its note's base frequency times
`2^(semitones/12)`; envelopes are untouched. -/
def pitch_bend_msg (e : ℚ → ℚ) (inst : Engine) (data1 data2 : ℕ) : Engine :=
  let raw : ℕ := (data2 <<< 7) ||| data1
  let bend : ℤ := (raw : ℤ) - 8192
  let semis : ℚ := ((bend : ℚ) / 8192) * 7
  { inst with
    pitchBendSemitones := semis
    voices := inst.voices.map (fun v =>
      if v.active then
        { v with dcoFrequency := midi_to_freq e v.note * e (semis / 12) }
      else v) }

/-- `v2_on_midi` (lines 862-919).  `msg` is the raw byte list; messages
shorter than 2 bytes are ignored; `data2` defaults to 0 for 2-byte
messages. -/
def v2_on_midi (e : ℚ → ℚ) (inst : Engine) (msg : List ℕ) : Engine :=
  if msg.length < 2 then inst
  else
    let status := msg.getD 0 0 &&& 0xF0
    let data1 := msg.getD 1 0
    let data2 := if msg.length > 2 then msg.getD 2 0 else 0
    if status = 0x90 then
      let note := transposeNote inst data1
      if data2 > 0 then note_on e inst note ((data2 : ℚ) / 127)
      else note_off inst note
    else if status = 0x80 then
      note_off inst (transposeNote inst data1)
    else if status = 0xB0 then
      if data1 = 120 ∨ data1 = 123 then all_notes_off inst else inst
    else if status = 0xE0 then
      pitch_bend_msg e inst data1 data2
    else inst

/- ===================================================================
   Parameter interface (v2_set_param, lines 921-987) and state
   save/restore (lines 926-951 and 1078-1095).

   String values are embedded as the numbers the C code parses out of
   them (`atof`/`atoi`), and the JSON-ish state record as a flat
   key/value list; `json_get_number` is a first-occurrence scan, i.e.
   a first-match lookup.
   =================================================================== -/

/-- `json_get_number` (lines 775-784): first occurrence of the key wins. -/
def json_get_number (record : List (String × ℚ)) (key : String) : Option ℚ :=
  (record.find? (fun p => p.1 = key)).map (·.2)

/-- The shadow-parameter scan shared by the named `v2_set_param` path
(lines 975-986): find the catalog entry for the key, clamp the value to
its range, and apply it. -/
def set_shadow_param (inst : Engine) (key : String) (fval : ℚ) : Engine :=
  match paramDefs.find? (fun d => d.key = key) with
  | some d => apply_param inst d.index (clampQ d.minVal d.maxVal fval)
  | none => inst

/-- The shadow-parameter restore loop of the `"state"` branch (lines
943-950): each catalog parameter present in the record is clamped to its
range and applied, in catalog order. -/
def restore_params (record : List (String × ℚ)) (s : Engine) :
    List PDef → Engine
  | [] => s
  | d :: rest =>
    restore_params record
      (match json_get_number record d.key with
       | some f => apply_param s d.index (clampQ d.minVal d.maxVal f)
       | none => s) rest

/-- The preset step of the `"state"` branch (lines 929-935): a valid
preset index from the record is recorded and applied. -/
def restore_preset_stage (inst : Engine) (record : List (String × ℚ)) :
    Engine :=
  match json_get_number record "preset" with
  | some f =>
    let idx := truncQ f
    if 0 ≤ idx ∧ idx < inst.preset_count then apply_preset inst idx else inst
  | none => inst

/-- The octave step of the `"state"` branch (lines 937-941): the octave
transpose from the record, clamped to [-3, 3]. -/
def restore_octave_stage (inst : Engine) (record : List (String × ℚ)) :
    Engine :=
  match json_get_number record "octave_transpose" with
  | some f =>
    let o := truncQ f
    { inst with octave_transpose := if o < -3 then -3 else if o > 3 then 3 else o }
  | none => inst

/-- The `key = "state"` branch of `v2_set_param` (lines 926-951): restore
preset index, octave transpose, and all clamped shadow parameters from
the record.  The raw preset values are republished unclamped by
`apply_preset` before the record's own (clamped) values overwrite them. -/
def v2_restore_state (inst : Engine) (record : List (String × ℚ)) : Engine :=
  restore_params record
    (restore_octave_stage (restore_preset_stage inst record) record) paramDefs

/-- `v2_set_param` for every key other than `"state"` (lines 954-986),
with the string value already parsed to the number the C code reads out
of it.  (The `"state"` branch takes a record, not a number, and is
modelled separately as `v2_restore_state`.) -/
def v2_set_param (inst : Engine) (key : String) (fval : ℚ) : Engine :=
  if key = "preset" then
    let idx := truncQ fval
    if 0 ≤ idx ∧ idx < inst.preset_count then
      apply_preset (all_notes_off inst) idx
    else inst
  else if key = "volume" then
    { inst with volume := clampQ 0 1 fval }
  else if key = "octave_transpose" then
    let o := truncQ fval
    { inst with octave_transpose := if o < -3 then -3 else if o > 3 then 3 else o }
  else if key = "all_notes_off" then
    all_notes_off inst
  else
    set_shadow_param inst key fval

/-- Rounding to four decimal places, the effect of the `"%.4f"` format
used by the state serializer (lines 1080-1092). -/
def q4 (v : ℚ) : ℚ := (round (v * 10000) : ℚ) / 10000

/-- The `key = "state"` branch of `v2_get_param` (lines 1078-1095): the
flat key/value record `{"preset":…,"volume":…,"octave_transpose":…,
"<shadow key>":…}`, with floats formatted at 4 decimal places. -/
def serialize_state (inst : Engine) : List (String × ℚ) :=
  ("preset", (inst.current_preset : ℚ)) ::
  ("volume", q4 inst.volume) ::
  ("octave_transpose", (inst.octave_transpose : ℚ)) ::
  paramDefs.map (fun d => (d.key, q4 (inst.params.getD d.index 0)))

/- ===================================================================
   Instance creation (v2_create_instance, lines 790-853), without the
   module-dir bookkeeping and preset file loading (external I/O): the
   fresh engine before any presets are loaded.
   =================================================================== -/

/-- The zero-initialized instance with the constructor-time field values
of `v2_create_instance` (lines 798-838) before defaults are applied. -/
def baseEngine : Engine where
  params := List.replicate kHeraNumParameters 0
  voices := List.replicate MAX_VOICES defaultVoice
  lfo := { running := false, ramp := 0 }
  lfoMode := 1
  vcaType := 0
  pitchFactor := 1
  pitchBendSemitones := 0
  smoothPitchModDepth := { current := 0, target := 0, coeff := smoothK }
  smoothCutoff := { current := 1, target := 1, coeff := smoothK }
  smoothResonance := { current := 0, target := 0, coeff := smoothK }
  smoothVCFEnvModDepth := { current := 0, target := 0, coeff := smoothK }
  smoothVCFLFOModDepth := { current := 0, target := 0, coeff := smoothK }
  smoothVCFKeyboardModDepth := { current := 0, target := 0, coeff := smoothK }
  smoothVCFBendDepth := { current := 0, target := 0, coeff := smoothK }
  presets := []
  preset_count := 0
  current_preset := 0
  octave_transpose := 0
  volume := 8/10

/-- A fresh engine instance: `v2_create_instance` with no preset files
on disk (lines 840-843 apply the catalog defaults in index order). -/
def initEngine : Engine :=
  (List.range kHeraNumParameters).foldl
    (fun s i => apply_param s i (g_param_defaults.getD i 0))
    baseEngine

/- ===================================================================
   Per-block modulation buses (v2_render_block, lines 1121-1166) and the
   per-voice cutoff computation (render_voice, lines 689-745).
   The audio buffers are embedded as lists indexed by the sample number.
   =================================================================== -/

/-- The detune loop of `v2_render_block` (lines 1136-1142):
`detune[i] = pitchFactor * 2^(lfo[i] * 0.25 * smoothPitchModDepth.getNextValue())`.
The smoother state advances once per sample, exactly as the C loop calls
`getNextValue()` once per iteration. -/
def detuneLoop (e : ℚ → ℚ) (pitchFactor : ℚ) (sm : OnePoleSmoothValue) :
    List ℚ → List ℚ
  | [] => []
  | l :: rest =>
    let sm' := sm.next
    (pitchFactor * e (l * (1/4) * sm'.current)) :: detuneLoop e pitchFactor sm' rest

/-- The detune buffer computed by `v2_render_block` from the engine state
and the shared LFO buffer. -/
def render_block_detune (e : ℚ → ℚ) (inst : Engine) (lfoBuf : List ℚ) : List ℚ :=
  detuneLoop e inst.pitchFactor inst.smoothPitchModDepth lfoBuf

/-- One sample of the filter-modulation buses of `v2_render_block`
(lines 1144-1159). -/
structure BusSample where
  cutoffOctaves : ℚ
  resonance : ℚ
  vcfEnvMod : ℚ
  vcfLFODetuneOctaves : ℚ
  vcfKeyboardMod : ℚ
  vcfBendDepth : ℚ
deriving DecidableEq

/-- The cutoff/resonance smoothing loop of `v2_render_block`
(lines 1144-1159): all six smoothers advance once per sample. -/
def busLoop (sC sR sE sL sK sB : OnePoleSmoothValue) : List ℚ → List BusSample
  | [] => []
  | l :: rest =>
    let sC' := sC.next
    let sR' := sR.next
    let sE' := sE.next
    let sL' := sL.next
    let sK' := sK.next
    let sB' := sB.next
    { cutoffOctaves := sC'.current * (200/12) + sR'.current * (1/2)
      resonance := sR'.current
      vcfEnvMod := sE'.current
      vcfLFODetuneOctaves := sL'.current * l * 3
      vcfKeyboardMod := sK'.current
      vcfBendDepth := sB'.current } :: busLoop sC' sR' sE' sL' sK' sB' rest

/-- The filter-modulation buses computed by `v2_render_block` from the
engine state and the shared LFO buffer. -/
def render_block_buses (inst : Engine) (lfoBuf : List ℚ) : List BusSample :=
  busLoop inst.smoothCutoff inst.smoothResonance inst.smoothVCFEnvModDepth
    inst.smoothVCFLFOModDepth inst.smoothVCFKeyboardModDepth
    inst.smoothVCFBendDepth lfoBuf

/-- The per-sample cutoff loop of `render_voice` (lines 733-743):
`cutoff[i] = 7.8f * exp2(cutoffOctaves[i] + envDetuneOctaves +
lfoDetuneOctaves + keyboardDetuneOctaves + filterBendOctaves)`, where
`envBuf` is the modulation (normal) envelope buffer and `ampEnvBuf` the
amplitude-path envelope buffer of the voice. -/
def render_voice_cutoffs (e : ℚ → ℚ) (note : ℤ) (pitchBendSemitones : ℚ) :
    List BusSample → List ℚ → List ℚ → List ℚ
  | b :: bs, en :: ens, am :: ams =>
    ((39/5) * e (b.cutoffOctaves
        + b.vcfEnvMod * en * 12
        + b.vcfLFODetuneOctaves * am
        + b.vcfKeyboardMod * (((note : ℚ) - 60) * (1/12))
        + b.vcfBendDepth * (pitchBendSemitones * (48 / (12 * 7)))))
      :: render_voice_cutoffs e note pitchBendSemitones bs ens ams
  | _, _, _ => []

/-- Modelled from the spec: `HeraVCF::processNextBlock` (Engine/HeraVCF.h
is not part of the source snapshot) clamps each per-sample cutoff to a
safe audio range `[lo, hi]` before using it to drive the filter stages. -/
def vcf_input_cutoff (lo hi cutoff : ℚ) : ℚ := clampQ lo hi cutoff

/- ===================================================================
   Voice bookkeeping of one rendered block (render_voice lines 689-761,
   v2_render_block lines 1161-1166).  The audio paths live in the loop
   functions above; here only the state-machine effects are kept: the
   envelopes advance by some per-block transition, and a voice whose
   governing envelope has gone inactive is reset and returned to the
   pool.  The envelope transitions of the block are abstracted as the
   functions `advN`/`advG` (one per envelope instance), universally
   quantified in the theorems.
   =================================================================== -/

/-- `render_voice` bookkeeping (lines 692-694 and 753-761): the normal
envelope always advances; the gate envelope advances only in gate mode;
a voice whose governing envelope reports inactive has its envelopes
reset and the slot freed. -/
def render_voice_step (advN advG : EnvState → EnvState) (v : Voice) : Voice :=
  let v1 := { v with
    normalEnv := advN v.normalEnv
    gateEnv := if v.vcaType ≠ 0 then advG v.gateEnv else v.gateEnv }
  if envIsActive v1.governingEnv then v1
  else
    let v2 := v1.mapGoverningEnv envReset
    { v2 with gateEnv := envReset v2.gateEnv, active := false, note := -1 }

/-- `v2_render_block` bookkeeping (lines 1134, 1161-1166): the shared
LFO advances by one block and every active voice is rendered. -/
def render_block_step (advN advG : EnvState → EnvState) (inst : Engine) : Engine :=
  { inst with
    lfo := inst.lfo.advance
    voices := inst.voices.map (fun v =>
      if v.active then render_voice_step advN advG v else v) }

/- ===================================================================
   Event histories (for the polyphony invariant)
   =================================================================== -/

/-- One external event at the engine boundary: a note-on, a note-off, or
one rendered block (whose envelope advances are the event's data). -/
inductive Event
  | noteOn (note : ℤ) (velocity : ℚ)
  | noteOff (note : ℤ)
  | render (advN advG : EnvState → EnvState)

/-- Engine transition for one event. -/
def stepEvent (e : ℚ → ℚ) (inst : Engine) : Event → Engine
  | .noteOn n vel => note_on e inst n vel
  | .noteOff n => note_off inst n
  | .render advN advG => render_block_step advN advG inst

/-- Engine state after a history of events from a fresh instance. -/
def runEvents (e : ℚ → ℚ) (evs : List Event) : Engine :=
  evs.foldl (stepEvent e) initEngine

/-- Number of currently active (assigned, not yet silent) voices. -/
def countActive (inst : Engine) : ℕ :=
  (inst.voices.filter (fun v => v.active)).length

/-- The allocation policy exactly as the spec words it for the
all-slots-assigned case: the first released slot, else slot 0.  (Used to
compare `find_free_voice` against the spec's description.) -/
def specStealSlot (voices : List Voice) : ℕ :=
  match firstIdx (fun v => v.isReleased) voices with
  | some i => i
  | none => 0

/- ===================================================================
   C1: voice-allocation policy
   =================================================================== -/

/-- **C1.** For every note-on event, the voice slot chosen by the
scheduler (`find_free_voice`) is the lowest-indexed pool slot that is
not currently assigned; if every slot is assigned, it is the
lowest-indexed slot whose governing envelope reports released; and if no
slot is released, it is slot 0 — so a note-on always obtains a voice
(an index below the pool size) and is never dropped. -/
theorem C1_find_free_voice_policy (vs : List Voice) (h6 : vs.length = 6) :
    find_free_voice vs < 6
    ∧ ((∃ i, i < 6 ∧ (vs.getD i defaultVoice).active = false) →
        (vs.getD (find_free_voice vs) defaultVoice).active = false
        ∧ ∀ j, j < find_free_voice vs → (vs.getD j defaultVoice).active = true)
    ∧ ((∀ i, i < 6 → (vs.getD i defaultVoice).active = true) →
        (∃ i, i < 6 ∧ (vs.getD i defaultVoice).isReleased = true) →
        (vs.getD (find_free_voice vs) defaultVoice).isReleased = true
        ∧ ∀ j, j < find_free_voice vs → (vs.getD j defaultVoice).isReleased = false)
    ∧ ((∀ i, i < 6 → (vs.getD i defaultVoice).active = true) →
        (∀ i, i < 6 → (vs.getD i defaultVoice).isReleased = false) →
        find_free_voice vs = 0) := by
  unfold find_free_voice
  cases h1 : firstIdx (fun v => !v.active) vs with
  | some i =>
    obtain ⟨hlt, hp, hbefore⟩ := firstIdx_some_spec _ defaultVoice vs i h1
    rw [h6] at hlt
    simp only [Bool.not_eq_true'] at hp
    refine ⟨hlt, fun _ => ⟨hp, fun j hj => ?_⟩, fun hall _ => ?_, fun hall _ => ?_⟩
    · have := hbefore j hj
      simpa using this
    · exact absurd (hall i hlt) (by rw [hp]; exact Bool.false_ne_true)
    · exact absurd (hall i hlt) (by rw [hp]; exact Bool.false_ne_true)
  | none =>
    have hallact : ∀ j, j < 6 → (vs.getD j defaultVoice).active = true := by
      intro j hj
      have := firstIdx_none_spec _ defaultVoice vs h1 j (by omega)
      simpa using this
    cases h2 : firstIdx (fun v => v.isReleased) vs with
    | some i =>
      obtain ⟨hlt, hp, hbefore⟩ := firstIdx_some_spec _ defaultVoice vs i h2
      rw [h6] at hlt
      refine ⟨hlt, fun hex => ?_, fun _ _ => ⟨hp, fun j hj => hbefore j hj⟩,
        fun _ hnone => ?_⟩
      · obtain ⟨k, hk, hkact⟩ := hex
        exact absurd (hallact k hk) (by rw [hkact]; exact Bool.false_ne_true)
      · exact absurd hp (by rw [hnone i hlt]; exact Bool.false_ne_true)
    | none =>
      refine ⟨by decide, fun hex => ?_, fun _ hex => ?_, fun _ _ => rfl⟩
      · obtain ⟨k, hk, hkact⟩ := hex
        exact absurd (hallact k hk) (by rw [hkact]; exact Bool.false_ne_true)
      · obtain ⟨k, hk, hkrel⟩ := hex
        have := firstIdx_none_spec _ defaultVoice vs h2 k (by omega)
        rw [this] at hkrel
        exact absurd hkrel (by simp)

/-- A fully assigned pool: four held voices and two released ones. -/
def c1Pool : List Voice :=
  [ { defaultVoice with active := true, normalEnv := .sustain }
  , { defaultVoice with active := true, normalEnv := .sustain }
  , { defaultVoice with active := true, normalEnv := .release }
  , { defaultVoice with active := true, normalEnv := .sustain }
  , { defaultVoice with active := true, normalEnv := .release }
  , { defaultVoice with active := true, normalEnv := .sustain } ]

/-- Witness for C1: on a fully assigned pool whose first released slot is
slot 2, the scheduler picks exactly slot 2. -/
theorem C1_witness :
    c1Pool.length = 6
    ∧ (c1Pool.getD (find_free_voice c1Pool) defaultVoice).isReleased = true
    ∧ (∀ j, j < find_free_voice c1Pool →
        (c1Pool.getD j defaultVoice).isReleased = false)
    ∧ find_free_voice c1Pool = 2 := by
  have h := (C1_find_free_voice_policy c1Pool (by decide)).2.2.1
    (by decide) ⟨2, by decide, by decide⟩
  exact ⟨by decide, h.1, h.2, by decide⟩

/- ===================================================================
   C2: bounded polyphony and deterministic stealing
   =================================================================== -/

theorem note_on_voices_length (e : ℚ → ℚ) (s : Engine) (n : ℤ) (vel : ℚ) :
    (note_on e s n vel).voices.length = s.voices.length := by
  unfold note_on
  dsimp only
  split <;> simp [List.length_set]

theorem note_off_voices_length (s : Engine) (n : ℤ) :
    (note_off s n).voices.length = s.voices.length := by
  unfold note_off
  cases firstIdx (noteOffMatch n) s.voices with
  | none => rfl
  | some i =>
    dsimp only
    split <;> simp [List.length_set]

theorem render_block_step_voices_length (advN advG : EnvState → EnvState)
    (s : Engine) :
    (render_block_step advN advG s).voices.length = s.voices.length := by
  simp [render_block_step]

theorem stepEvent_voices_length (e : ℚ → ℚ) (s : Engine) (ev : Event) :
    (stepEvent e s ev).voices.length = s.voices.length := by
  cases ev with
  | noteOn n vel => exact note_on_voices_length e s n vel
  | noteOff n => exact note_off_voices_length s n
  | render advN advG => exact render_block_step_voices_length advN advG s

theorem foldl_stepEvent_voices_length (e : ℚ → ℚ) :
    ∀ (evs : List Event) (s : Engine),
      ((evs.foldl (stepEvent e) s).voices.length) = s.voices.length
  | [], s => rfl
  | ev :: evs, s => by
    rw [List.foldl_cons, foldl_stepEvent_voices_length e evs (stepEvent e s ev),
      stepEvent_voices_length]

theorem countActive_le_length (s : Engine) : countActive s ≤ s.voices.length :=
  List.length_filter_le _ _

/-- **C2.** For every sequence of note-on, note-off, and render events
starting from a fresh engine instance, the voice pool keeps its fixed
size and at most `MAX_VOICES = 6` voices are active at any time; a
further note-on (a 7th note while 6 are held) still leaves at most 6
active voices; and whenever every slot is assigned, the slot stolen by
the next note-on is exactly the spec's deterministic policy: the first
released slot, else slot 0. -/
theorem C2_bounded_polyphony (e : ℚ → ℚ) (evs : List Event) :
    (runEvents e evs).voices.length = MAX_VOICES
    ∧ countActive (runEvents e evs) ≤ MAX_VOICES
    ∧ (∀ n vel, countActive (note_on e (runEvents e evs) n vel) ≤ MAX_VOICES)
    ∧ ((∀ i, i < MAX_VOICES →
          ((runEvents e evs).voices.getD i defaultVoice).active = true) →
        find_free_voice (runEvents e evs).voices
          = specStealSlot (runEvents e evs).voices) := by
  have hlen : (runEvents e evs).voices.length = MAX_VOICES := by
    rw [runEvents, foldl_stepEvent_voices_length]
    decide
  refine ⟨hlen, le_of_le_of_eq (countActive_le_length _) hlen, fun n vel => ?_, ?_⟩
  · have h2 : (note_on e (runEvents e evs) n vel).voices.length = MAX_VOICES := by
      rw [note_on_voices_length]
      exact hlen
    exact le_of_le_of_eq (countActive_le_length _) h2
  · intro hall
    have hnone : firstIdx (fun v => !v.active) (runEvents e evs).voices = none := by
      cases h1 : firstIdx (fun v => !v.active) (runEvents e evs).voices with
      | none => rfl
      | some i =>
        obtain ⟨hlt, hp, _⟩ := firstIdx_some_spec _ defaultVoice _ i h1
        rw [hlen] at hlt
        have := hall i hlt
        rw [this] at hp
        exact absurd hp (by simp)
    rw [find_free_voice, hnone, specStealSlot]

/-- Event history: six held notes filling the entire pool. -/
def c2Events : List Event :=
  [ .noteOn 60 1, .noteOn 61 1, .noteOn 62 1,
    .noteOn 63 1, .noteOn 64 1, .noteOn 65 1 ]

/-- Witness for C2: after six note-ons every slot is assigned, the active
count is at the bound, and the slot a 7th note-on would steal follows the
spec policy (here: no slot released, hence slot 0). -/
theorem C2_witness :
    (∀ i, i < MAX_VOICES →
      ((runEvents id c2Events).voices.getD i defaultVoice).active = true)
    ∧ find_free_voice (runEvents id c2Events).voices
        = specStealSlot (runEvents id c2Events).voices
    ∧ countActive (runEvents id c2Events) ≤ MAX_VOICES
    ∧ find_free_voice (runEvents id c2Events).voices = 0 := by
  have h := C2_bounded_polyphony id c2Events
  exact ⟨by decide, h.2.2.2 (by decide), h.2.1, by decide⟩

/- ===================================================================
   C3 / C8: per-sample modulation formulas
   =================================================================== -/

theorem valueAt_zero (sm : OnePoleSmoothValue) : sm.valueAt 0 = sm.next.current := by
  simp [OnePoleSmoothValue.valueAt]

theorem valueAt_succ (sm : OnePoleSmoothValue) (i : ℕ) :
    sm.valueAt (i + 1) = sm.next.valueAt i := by
  simp [OnePoleSmoothValue.valueAt, Function.iterate_succ_apply]

/-- Fallback bus sample for list indexing. -/
def busDefault : BusSample := ⟨0, 0, 0, 0, 0, 0⟩

theorem busLoop_length (sC sR sE sL sK sB : OnePoleSmoothValue) :
    ∀ (lfo : List ℚ), (busLoop sC sR sE sL sK sB lfo).length = lfo.length
  | [] => rfl
  | _ :: rest => by
    rw [busLoop]
    rw [List.length_cons, List.length_cons, busLoop_length]

theorem busLoop_getD (sC sR sE sL sK sB : OnePoleSmoothValue) :
    ∀ (lfo : List ℚ) (i : ℕ), i < lfo.length →
      (busLoop sC sR sE sL sK sB lfo).getD i busDefault =
        { cutoffOctaves := sC.valueAt i * (200/12) + sR.valueAt i * (1/2)
          resonance := sR.valueAt i
          vcfEnvMod := sE.valueAt i
          vcfLFODetuneOctaves := sL.valueAt i * (lfo.getD i 0) * 3
          vcfKeyboardMod := sK.valueAt i
          vcfBendDepth := sB.valueAt i }
  | [], i => by simp
  | l :: rest, 0 => by
    intro _
    rw [busLoop]
    simp [valueAt_zero]
  | l :: rest, i + 1 => by
    intro h
    rw [busLoop]
    rw [List.getD_cons_succ, List.getD_cons_succ,
      busLoop_getD _ _ _ _ _ _ rest i (by simpa using h)]
    simp [valueAt_succ]

theorem render_voice_cutoffs_getD (e : ℚ → ℚ) (note : ℤ) (bendSemis : ℚ) :
    ∀ (busL : List BusSample) (env amp : List ℚ) (i : ℕ),
      i < busL.length → i < env.length → i < amp.length →
      (render_voice_cutoffs e note bendSemis busL env amp).getD i 0 =
        (39/5) * e ((busL.getD i busDefault).cutoffOctaves
          + (busL.getD i busDefault).vcfEnvMod * env.getD i 0 * 12
          + (busL.getD i busDefault).vcfLFODetuneOctaves * amp.getD i 0
          + (busL.getD i busDefault).vcfKeyboardMod * (((note : ℚ) - 60) * (1/12))
          + (busL.getD i busDefault).vcfBendDepth * (bendSemis * (48 / (12 * 7))))
  | [], env, amp, i => by simp
  | b :: bs, [], amp, i => by simp
  | b :: bs, en :: ens, [], i => by simp
  | b :: bs, en :: ens, am :: ams, 0 => by
    intro _ _ _
    rfl
  | b :: bs, en :: ens, am :: ams, i + 1 => by
    intro h1 h2 h3
    rw [render_voice_cutoffs]
    simp only [List.getD_cons_succ]
    exact render_voice_cutoffs_getD e note bendSemis bs ens ams i
      (by simpa using h1) (by simpa using h2) (by simpa using h3)

/-- The total octave sum exactly as the claim words it: base
cutoff+resonance contribution, plus envelope depth × envelope value × 12
octaves, plus LFO depth × amplitude-envelope value octaves, plus
key-track depth × (note−60)/12 octaves, plus bend depth × bend
semitones × (48/84) octaves.  (Spec-side definition, for comparison with
the code path.) -/
def specCutoffOctaves (inst : Engine) (lfoBuf env amp : List ℚ) (note : ℤ)
    (i : ℕ) : ℚ :=
  (inst.smoothCutoff.valueAt i * (200/12) + inst.smoothResonance.valueAt i * (1/2))
  + inst.smoothVCFEnvModDepth.valueAt i * env.getD i 0 * 12
  + (inst.smoothVCFLFOModDepth.valueAt i * lfoBuf.getD i 0 * 3) * amp.getD i 0
  + inst.smoothVCFKeyboardModDepth.valueAt i * (((note : ℚ) - 60) / 12)
  + inst.smoothVCFBendDepth.valueAt i * (inst.pitchBendSemitones * (48/84))

/-- **C3.** For every active voice and every sample of a rendered block,
the cutoff frequency fed to the resonant filter equals the base
frequency 7.8 Hz times 2 raised to the total octave sum of the claim
(`specCutoffOctaves`), and the value the filter consumes is that cutoff
clamped to the safe audio range. -/
theorem C3_cutoff_formula (e : ℚ → ℚ) (inst : Engine)
    (lfoBuf env amp : List ℚ) (note : ℤ) (i : ℕ) (lo hi : ℚ)
    (h1 : i < lfoBuf.length) (h2 : i < env.length) (h3 : i < amp.length) :
    (render_voice_cutoffs e note inst.pitchBendSemitones
        (render_block_buses inst lfoBuf) env amp).getD i 0
      = (39/5) * e (specCutoffOctaves inst lfoBuf env amp note i)
    ∧ vcf_input_cutoff lo hi
        ((render_voice_cutoffs e note inst.pitchBendSemitones
          (render_block_buses inst lfoBuf) env amp).getD i 0)
      = clampQ lo hi ((39/5) * e (specCutoffOctaves inst lfoBuf env amp note i)) := by
  have hb : i < (render_block_buses inst lfoBuf).length := by
    rw [render_block_buses, busLoop_length]
    exact h1
  have hmain :
      (render_voice_cutoffs e note inst.pitchBendSemitones
        (render_block_buses inst lfoBuf) env amp).getD i 0
      = (39/5) * e (specCutoffOctaves inst lfoBuf env amp note i) := by
    rw [render_voice_cutoffs_getD e note inst.pitchBendSemitones _ env amp i hb h2 h3]
    rw [render_block_buses, busLoop_getD _ _ _ _ _ _ lfoBuf i h1]
    have harg :
        (inst.smoothCutoff.valueAt i * (200/12) + inst.smoothResonance.valueAt i * (1/2))
          + inst.smoothVCFEnvModDepth.valueAt i * env.getD i 0 * 12
          + (inst.smoothVCFLFOModDepth.valueAt i * lfoBuf.getD i 0 * 3) * amp.getD i 0
          + inst.smoothVCFKeyboardModDepth.valueAt i * (((note : ℚ) - 60) * (1/12))
          + inst.smoothVCFBendDepth.valueAt i * (inst.pitchBendSemitones * (48 / (12 * 7)))
        = specCutoffOctaves inst lfoBuf env amp note i := by
      rw [specCutoffOctaves]
      ring
    rw [← harg]
  exact ⟨hmain, by rw [hmain, vcf_input_cutoff]⟩

/-- Witness for C3: the formula evaluated on a fresh engine at sample 0
of a two-sample block. -/
theorem C3_witness :
    (render_voice_cutoffs id (60 : ℤ) initEngine.pitchBendSemitones
        (render_block_buses initEngine [1, 1/2]) [1, 1] [1, 1]).getD 0 0
      = (39/5) * id (specCutoffOctaves initEngine [1, 1/2] [1, 1] [1, 1] 60 0)
    ∧ vcf_input_cutoff 0 24000
        ((render_voice_cutoffs id (60 : ℤ) initEngine.pitchBendSemitones
          (render_block_buses initEngine [1, 1/2]) [1, 1] [1, 1]).getD 0 0)
      = clampQ 0 24000
          ((39/5) * id (specCutoffOctaves initEngine [1, 1/2] [1, 1] [1, 1] 60 0)) :=
  C3_cutoff_formula id initEngine [1, 1/2] [1, 1] [1, 1] 60 0 0 24000
    (by decide) (by decide) (by decide)

theorem detuneLoop_getD (e : ℚ → ℚ) (pf : ℚ) :
    ∀ (lfo : List ℚ) (sm : OnePoleSmoothValue) (i : ℕ), i < lfo.length →
      (detuneLoop e pf sm lfo).getD i 0
        = pf * e (lfo.getD i 0 * (1/4) * sm.valueAt i)
  | [], sm, i => by simp
  | l :: rest, sm, 0 => by
    intro _
    rw [detuneLoop]
    simp [valueAt_zero]
  | l :: rest, sm, i + 1 => by
    intro h
    rw [detuneLoop]
    rw [List.getD_cons_succ, List.getD_cons_succ,
      detuneLoop_getD e pf rest sm.next i (by simpa using h)]
    rw [valueAt_succ]

/-- **C8.** For every rendered block and every sample index `i` within
it, the shared per-sample pitch-detune multiplier equals
`pitch_range * 2^(lfo[i] * 0.25 * depth[i])`, where `lfo[i]` is the
shared LFO buffer value, `pitch_range` is the current pitch-range
factor, and `depth[i]` is the smoothed pitch-mod-depth value at that
sample. -/
theorem C8_detune_formula (e : ℚ → ℚ) (inst : Engine) (lfoBuf : List ℚ)
    (i : ℕ) (h : i < lfoBuf.length) :
    (render_block_detune e inst lfoBuf).getD i 0
      = inst.pitchFactor
        * e (lfoBuf.getD i 0 * (1/4) * inst.smoothPitchModDepth.valueAt i) := by
  rw [render_block_detune]
  exact detuneLoop_getD e inst.pitchFactor lfoBuf inst.smoothPitchModDepth i h

/-- Witness for C8: the detune multiplier of a fresh engine at sample 1
of a two-sample block. -/
theorem C8_witness :
    (render_block_detune id initEngine [1, 1/2]).getD 1 0
      = initEngine.pitchFactor
        * id (([1, (1:ℚ)/2].getD 1 0) * (1/4)
            * initEngine.smoothPitchModDepth.valueAt 1) :=
  C8_detune_formula id initEngine [1, 1/2] 1 (by decide)

/- ===================================================================
   C5 / C10: MIDI message handling
   =================================================================== -/

theorem shiftLeft_lor_eq_add (a : ℕ) :
    ∀ (k b : ℕ), b < 2 ^ k → a <<< k ||| b = a * 2 ^ k + b
  | 0, b => by
    intro h
    interval_cases b
    simp
  | k + 1, b => by
    intro h
    have hm : b / 2 < 2 ^ k := by
      have h2 : b < 2 ^ k * 2 := by
        rw [← pow_succ]
        exact h
      omega
    have hbit : Nat.bit (decide (b % 2 = 1)) (b / 2) = b := by
      have hb := Nat.bit_decide_mod_two_eq_one_shiftRight_one b
      rwa [Nat.shiftRight_one] at hb
    have key : a <<< (k + 1) ||| Nat.bit (decide (b % 2 = 1)) (b / 2)
        = a * 2 ^ (k + 1) + Nat.bit (decide (b % 2 = 1)) (b / 2) := by
      have hsh : a <<< (k + 1) = Nat.bit false (a <<< k) := by
        rw [Nat.shiftLeft_succ, Nat.bit_val]
        simp
      rw [hsh, Nat.lor_bit, shiftLeft_lor_eq_add a k (b / 2) hm,
        Nat.bit_val, Nat.bit_val, Bool.false_or, pow_succ]
      ring
    rw [← hbit]
    exact key

theorem status_mask_90 : ∀ ch, ch < 16 → (144 + ch) &&& 240 = 144 := by decide

theorem status_mask_E0 : ∀ ch, ch < 16 → (224 + ch) &&& 240 = 224 := by decide

theorem getD_map_lt (f : α → β) (l : List α) (j : ℕ) (h : j < l.length)
    (d : α) (d' : β) : (l.map f).getD j d' = f (l.getD j d) := by
  simp [List.getD_eq_getElem?_getD, List.getElem?_map,
    List.getElem?_eq_getElem h]

theorem getD_set_ne (l : List α) (i j : ℕ) (x d : α) (h : i ≠ j) :
    (l.set i x).getD j d = l.getD j d := by
  simp [List.getD_eq_getElem?_getD, List.getElem?_set_ne h]

theorem getD_set_lt (l : List α) (i : ℕ) (x d : α) (h : i < l.length) :
    (l.set i x).getD i d = x := by
  simp [List.getD_eq_getElem?_getD, List.getElem?_set_eq_of_lt x h]

theorem pitch_bend_semis (e : ℚ → ℚ) (s : Engine) (d1 d2 : ℕ) (hd1 : d1 < 128) :
    (pitch_bend_msg e s d1 d2).pitchBendSemitones
      = ((((d2 * 128 + d1 : ℕ) : ℚ) - 8192) / 8192) * 7 := by
  have hraw : ((d2 <<< 7) ||| d1) = d2 * 128 + d1 := by
    have := shiftLeft_lor_eq_add d2 7 d1 (by norm_num [hd1])
    simpa using this
  simp only [pitch_bend_msg, hraw]
  push_cast
  ring

theorem pitch_bend_voices (e : ℚ → ℚ) (s : Engine) (d1 d2 : ℕ) (hd1 : d1 < 128) :
    (pitch_bend_msg e s d1 d2).voices
      = s.voices.map (fun v =>
          if v.active then
            { v with dcoFrequency :=
                (midi_to_freq e v.note
                  * e ((((((d2 * 128 + d1 : ℕ) : ℚ) - 8192) / 8192) * 7) / 12)) }
          else v) := by
  have hraw : ((d2 <<< 7) ||| d1) = d2 * 128 + d1 := by
    have := shiftLeft_lor_eq_add d2 7 d1 (by norm_num [hd1])
    simpa using this
  simp only [pitch_bend_msg, hraw]
  congr 1
  funext v
  by_cases ha : v.active = true
  · rw [if_pos ha, if_pos ha]
    have harg : (((((d2 * 128 + d1 : ℕ) : ℤ) - 8192 : ℤ) : ℚ)) / 8192 * 7 / 12
        = ((((d2 * 128 + d1 : ℕ) : ℚ) - 8192) / 8192) * 7 / 12 := by
      push_cast
      ring
    rw [harg]
  · rw [if_neg ha, if_neg ha]

theorem v2_on_midi_E0 (e : ℚ → ℚ) (s : Engine) (ch d1 d2 : ℕ) (hch : ch < 16) :
    v2_on_midi e s [224 + ch, d1, d2] = pitch_bend_msg e s d1 d2 := by
  have hst := status_mask_E0 ch hch
  rw [v2_on_midi]
  simp [hst]

/-- **C5.** For every pitch-bend message with raw 14-bit value
`v = (d2 << 7) | d1`, the bend in semitones equals `((v - 8192)/8192)*7`;
the DCO frequency of every currently active voice is set to its note's
base frequency times `2^(semitones/12)`; inactive voices are untouched;
no voice's envelopes are retriggered and no voice is activated or
deactivated; and a raw bend of +4096 above center (`d1 = 0, d2 = 96`)
yields +3.5 semitones. -/
theorem C5_pitch_bend (e : ℚ → ℚ) (s : Engine) (ch d1 d2 : ℕ)
    (hch : ch < 16) (hd1 : d1 < 128) :
    (v2_on_midi e s [224 + ch, d1, d2]).pitchBendSemitones
      = ((((d2 * 128 + d1 : ℕ) : ℚ) - 8192) / 8192) * 7
    ∧ (∀ j, j < s.voices.length →
        (((s.voices.getD j defaultVoice).active = true →
          ((v2_on_midi e s [224 + ch, d1, d2]).voices.getD j defaultVoice).dcoFrequency
            = midi_to_freq e (s.voices.getD j defaultVoice).note
              * e ((((((d2 * 128 + d1 : ℕ) : ℚ) - 8192) / 8192) * 7) / 12))
        ∧ ((s.voices.getD j defaultVoice).active = false →
          (v2_on_midi e s [224 + ch, d1, d2]).voices.getD j defaultVoice
            = s.voices.getD j defaultVoice)
        ∧ ((v2_on_midi e s [224 + ch, d1, d2]).voices.getD j defaultVoice).normalEnv
            = (s.voices.getD j defaultVoice).normalEnv
        ∧ ((v2_on_midi e s [224 + ch, d1, d2]).voices.getD j defaultVoice).gateEnv
            = (s.voices.getD j defaultVoice).gateEnv
        ∧ ((v2_on_midi e s [224 + ch, d1, d2]).voices.getD j defaultVoice).active
            = (s.voices.getD j defaultVoice).active))
    ∧ (d1 = 0 → d2 = 96 →
        (v2_on_midi e s [224 + ch, d1, d2]).pitchBendSemitones = 7/2) := by
  rw [v2_on_midi_E0 e s ch d1 d2 hch]
  refine ⟨pitch_bend_semis e s d1 d2 hd1, fun j hj => ?_, fun h1 h2 => ?_⟩
  · rw [pitch_bend_voices e s d1 d2 hd1,
      getD_map_lt _ _ j hj defaultVoice defaultVoice]
    by_cases ha : (s.voices.getD j defaultVoice).active = true
    · rw [if_pos ha]
      refine ⟨fun _ => rfl, fun hcon => ?_, rfl, rfl, rfl⟩
      rw [ha] at hcon
      exact absurd hcon (by simp)
    · rw [if_neg ha]
      exact ⟨fun hcon => absurd hcon ha, fun _ => rfl, rfl, rfl, rfl⟩
  · rw [pitch_bend_semis e s d1 d2 hd1, h1, h2]
    norm_num

/-- Witness for C5: a fresh engine holding one note (60), then a raw
pitch bend of +4096 above center; the bend is +3.5 semitones and the
held voice's DCO frequency picks up the factor `2^(3.5/12)`. -/
theorem C5_witness :
    (v2_on_midi id (runEvents id [.noteOn 60 1]) [224, 0, 96]).pitchBendSemitones
      = ((((96 * 128 + 0 : ℕ) : ℚ) - 8192) / 8192) * 7
    ∧ ((runEvents id [.noteOn 60 1]).voices.getD 0 defaultVoice).active = true
    ∧ ((v2_on_midi id (runEvents id [.noteOn 60 1]) [224, 0, 96]).voices.getD 0
        defaultVoice).dcoFrequency
      = midi_to_freq id ((runEvents id [.noteOn 60 1]).voices.getD 0
          defaultVoice).note
        * id ((((((96 * 128 + 0 : ℕ) : ℚ) - 8192) / 8192) * 7) / 12)
    ∧ (v2_on_midi id (runEvents id [.noteOn 60 1]) [224, 0, 96]).pitchBendSemitones
      = 7/2 := by
  have h := C5_pitch_bend id (runEvents id [.noteOn 60 1]) 0 0 96
    (by norm_num) (by norm_num)
  exact ⟨h.1, by decide, (h.2.1 0 (by decide)).1 (by decide), h.2.2 rfl rfl⟩

/- ===================================================================
   C6 / C10: note-off semantics
   =================================================================== -/

theorem mapGoverningEnv_active (v : Voice) (f : EnvState → EnvState) :
    (v.mapGoverningEnv f).active = v.active := by
  rw [Voice.mapGoverningEnv]
  split <;> rfl

theorem governingEnv_mapGoverningEnv (v : Voice) (f : EnvState → EnvState) :
    (v.mapGoverningEnv f).governingEnv = f v.governingEnv := by
  by_cases h : v.vcaType = 0 <;>
    simp [Voice.mapGoverningEnv, Voice.governingEnv, h]

theorem isReleased_eq_governing (v : Voice) :
    v.isReleased = envIsReleased v.governingEnv := by
  by_cases h : v.vcaType = 0 <;>
    simp [Voice.isReleased, Voice.governingEnv, h]

theorem envNoteOff_of_not_released (x : EnvState)
    (h : envIsReleased x = false) : envNoteOff x = .release := by
  cases x <;> simp_all [envIsReleased, envNoteOff]

theorem note_off_of_none (s : Engine) (n : ℤ)
    (h : firstIdx (noteOffMatch n) s.voices = none) : note_off s n = s := by
  rw [note_off, h]

theorem note_off_voices_of_some (s : Engine) (n : ℤ) (i : ℕ)
    (h : firstIdx (noteOffMatch n) s.voices = some i) :
    (note_off s n).voices
      = s.voices.set i
          ((s.voices.getD i defaultVoice).mapGoverningEnv envNoteOff) := by
  rw [note_off, h]
  dsimp only
  split <;> rfl

/-- **C6 (amended).** For every note-off(n) event, at most one voice is
affected: when some voice is active, holds note n, and is not yet
released, the first (lowest-indexed) such voice has its governing
envelope released and every other voice is left unchanged; when no voice
matches, the engine is unchanged. -/
theorem C6_note_off_first_match (s : Engine) (n : ℤ) :
    (firstIdx (noteOffMatch n) s.voices = none → note_off s n = s)
    ∧ (∀ i, firstIdx (noteOffMatch n) s.voices = some i →
        (s.voices.getD i defaultVoice).active = true
        ∧ (s.voices.getD i defaultVoice).note = n
        ∧ (s.voices.getD i defaultVoice).isReleased = false
        ∧ (∀ j, j < i → noteOffMatch n (s.voices.getD j defaultVoice) = false)
        ∧ ((note_off s n).voices.getD i defaultVoice).governingEnv
            = EnvState.release
        ∧ ((note_off s n).voices.getD i defaultVoice)
            = (s.voices.getD i defaultVoice).mapGoverningEnv envNoteOff
        ∧ (∀ j, j ≠ i → (note_off s n).voices.getD j defaultVoice
              = s.voices.getD j defaultVoice)) := by
  refine ⟨note_off_of_none s n, fun i hi => ?_⟩
  obtain ⟨hlt, hp, hbefore⟩ := firstIdx_some_spec _ defaultVoice _ i hi
  have hmatch := hp
  simp only [noteOffMatch, Bool.and_eq_true, beq_iff_eq, Bool.not_eq_true'] at hmatch
  obtain ⟨⟨hact, hnote⟩, hrel⟩ := hmatch
  have hv := note_off_voices_of_some s n i hi
  have hgetD : (note_off s n).voices.getD i defaultVoice
      = (s.voices.getD i defaultVoice).mapGoverningEnv envNoteOff := by
    rw [hv]
    exact getD_set_lt _ _ _ _ hlt
  refine ⟨hact, hnote, hrel, fun j hj => hbefore j hj, ?_, hgetD, fun j hj => ?_⟩
  · rw [hgetD, governingEnv_mapGoverningEnv]
    apply envNoteOff_of_not_released
    rw [← isReleased_eq_governing]
    exact hrel
  · rw [hv]
    exact getD_set_ne _ _ _ _ _ (fun h => hj h.symm)

/-- Counterexample to C6 as stated: a note-off for a note held by no
voice (here: a fresh engine) affects zero voices, not exactly one. -/
theorem C6_counterexample :
    note_off initEngine 60 = initEngine
    ∧ ¬ ∃ j, (note_off initEngine 60).voices.getD j defaultVoice
          ≠ initEngine.voices.getD j defaultVoice := by
  have hf : firstIdx (noteOffMatch 60) initEngine.voices = none := by decide
  have h := note_off_of_none initEngine 60 hf
  exact ⟨h, fun ⟨j, hj⟩ => hj (by rw [h])⟩

/-- Witness for C6 (amended): on a fresh engine holding note 60 in slot
0, a note-off(60) releases exactly slot 0 and leaves the rest alone. -/
theorem C6_witness :
    firstIdx (noteOffMatch 60) (runEvents id [.noteOn 60 1]).voices = some 0
    ∧ ((note_off (runEvents id [.noteOn 60 1]) 60).voices.getD 0
        defaultVoice).governingEnv = EnvState.release
    ∧ ∀ j, j ≠ 0 →
        (note_off (runEvents id [.noteOn 60 1]) 60).voices.getD j defaultVoice
          = (runEvents id [.noteOn 60 1]).voices.getD j defaultVoice := by
  have h := (C6_note_off_first_match (runEvents id [.noteOn 60 1]) 60).2 0
    (by decide)
  exact ⟨by decide, h.2.2.2.2.1, h.2.2.2.2.2.2⟩

/-- **C10.** For every MIDI note-on message (status `0x90`) whose
velocity byte is 0, the engine performs a note-off for the (transposed)
note instead of allocating a voice: the handler equals `note_off`, no
voice's active flag changes, and when a first active, not-yet-released
voice holds that note, its governing envelope is released while every
other voice is left unchanged. -/
theorem C10_velocity_zero_note_off (e : ℚ → ℚ) (s : Engine) (ch n : ℕ)
    (hch : ch < 16) :
    v2_on_midi e s [144 + ch, n, 0] = note_off s (transposeNote s n)
    ∧ (∀ j, ((v2_on_midi e s [144 + ch, n, 0]).voices.getD j defaultVoice).active
          = (s.voices.getD j defaultVoice).active)
    ∧ (∀ i, firstIdx (noteOffMatch (transposeNote s n)) s.voices = some i →
        ((v2_on_midi e s [144 + ch, n, 0]).voices.getD i defaultVoice).governingEnv
            = EnvState.release
        ∧ ∀ j, j ≠ i →
            (v2_on_midi e s [144 + ch, n, 0]).voices.getD j defaultVoice
              = s.voices.getD j defaultVoice) := by
  have hst := status_mask_90 ch hch
  have hdisp : v2_on_midi e s [144 + ch, n, 0] = note_off s (transposeNote s n) := by
    rw [v2_on_midi]
    simp [hst]
  refine ⟨hdisp, fun j => ?_, fun i hi => ?_⟩
  · rw [hdisp]
    cases hf : firstIdx (noteOffMatch (transposeNote s n)) s.voices with
    | none => rw [note_off_of_none s _ hf]
    | some i =>
      obtain ⟨hlt, _, _⟩ := firstIdx_some_spec _ defaultVoice _ i hf
      rw [note_off_voices_of_some s _ i hf]
      by_cases hij : i = j
      · subst hij
        rw [getD_set_lt _ _ _ _ hlt, mapGoverningEnv_active]
      · rw [getD_set_ne _ _ _ _ _ hij]
  · have h6 := (C6_note_off_first_match s (transposeNote s n)).2 i hi
    rw [hdisp]
    exact ⟨h6.2.2.2.2.1, h6.2.2.2.2.2.2⟩

/-- Witness for C10: on a fresh engine holding note 60, a `0x90` message
with velocity byte 0 behaves exactly as note-off(60): slot 0's governing
envelope enters Release and no voice is newly assigned. -/
theorem C10_witness :
    v2_on_midi id (runEvents id [.noteOn 60 1]) [144, 60, 0]
      = note_off (runEvents id [.noteOn 60 1])
          (transposeNote (runEvents id [.noteOn 60 1]) 60)
    ∧ ((v2_on_midi id (runEvents id [.noteOn 60 1]) [144, 60, 0]).voices.getD 0
        defaultVoice).governingEnv = EnvState.release
    ∧ ((v2_on_midi id (runEvents id [.noteOn 60 1]) [144, 60, 0]).voices.getD 0
        defaultVoice).active
      = ((runEvents id [.noteOn 60 1]).voices.getD 0 defaultVoice).active := by
  have h := C10_velocity_zero_note_off id (runEvents id [.noteOn 60 1]) 0 60
    (by norm_num)
  have h3 := h.2.2 0 (by decide)
  exact ⟨h.1, h3.1, h.2.1 0⟩

/- ===================================================================
   C7: key-triggered LFO
   =================================================================== -/

/-- A pool slot currently held: assigned and not released. -/
def heldVoice (vs : List Voice) (j : ℕ) : Bool :=
  (vs.getD j defaultVoice).active && !(vs.getD j defaultVoice).isReleased

theorem any_eq_true_iff_exists_getD (p : α → Bool) (d : α) :
    ∀ (l : List α), l.any p = true ↔ ∃ j, j < l.length ∧ p (l.getD j d) = true
  | [] => by simp
  | x :: xs => by
    simp only [List.any_cons, Bool.or_eq_true, any_eq_true_iff_exists_getD p d xs]
    constructor
    · rintro (hx | ⟨j, hj, hp⟩)
      · exact ⟨0, by simp, by simpa using hx⟩
      · exact ⟨j + 1, by simpa using hj, by simpa using hp⟩
    · rintro ⟨j, hj, hp⟩
      cases j with
      | zero => exact Or.inl (by simpa using hp)
      | succ j => exact Or.inr ⟨j, by simpa using hj, by simpa using hp⟩

theorem has_unreleased_iff (s : Engine) :
    has_unreleased_voices s = true
      ↔ ∃ j, j < s.voices.length ∧ heldVoice s.voices j = true := by
  rw [has_unreleased_voices, any_eq_true_iff_exists_getD _ defaultVoice]
  unfold heldVoice
  rfl

theorem find_free_voice_lt (vs : List Voice) (h : 0 < vs.length) :
    find_free_voice vs < vs.length := by
  unfold find_free_voice
  cases h1 : firstIdx (fun v => !v.active) vs with
  | some i => exact (firstIdx_some_spec _ defaultVoice _ i h1).1
  | none =>
    cases h2 : firstIdx (fun v => v.isReleased) vs with
    | some i => exact (firstIdx_some_spec _ defaultVoice _ i h2).1
    | none => exact h

theorem note_on_lfo (e : ℚ → ℚ) (s : Engine) (n : ℤ) (vel : ℚ) :
    (note_on e s n vel).lfo =
      if s.lfoMode = 1 ∧
          ¬has_unreleased_voices
            { s with voices := (s.voices.set (find_free_voice s.voices)
                (note_on_assigned e s n vel)) } = true then
        LFOState.trigger
      else s.lfo := by
  rw [note_on]
  dsimp only
  split <;> rfl

theorem note_off_lfo_of_some (s : Engine) (m : ℤ) (i : ℕ)
    (h : firstIdx (noteOffMatch m) s.voices = some i) :
    (note_off s m).lfo =
      if s.lfoMode = 1 ∧
          ¬has_unreleased_voices
            { s with voices := (s.voices.set i
                ((s.voices.getD i defaultVoice).mapGoverningEnv envNoteOff)) }
              = true then
        LFOState.shut
      else s.lfo := by
  rw [note_off, h]
  dsimp only
  split <;> rfl

/-- **C7 (amended).** In key-triggered mode, a note-on triggers the
shared LFO (restarting its delay+attack ramp from 0) if and only if the
post-assignment pool holds no voice; provided the assigned slot's
inherited envelope reports released — the normal situation — this is
exactly "no *other* voice is held at the moment of the note-on".  A
second note held concurrently therefore leaves the LFO state untouched,
and a note-off that releases the last held voice shuts the LFO down
(later-held voices keep it running). -/
theorem C7_lfo_key_trigger (e : ℚ → ℚ) (s : Engine) (hmode : s.lfoMode = 1)
    (hlen : s.voices.length = 6) (n : ℤ) (vel : ℚ)
    (hrel : (note_on_assigned e s n vel).isReleased = true) :
    ((∀ j, j < 6 → j ≠ find_free_voice s.voices →
        heldVoice s.voices j = false) →
      (note_on e s n vel).lfo = LFOState.trigger)
    ∧ ((∃ j, j < 6 ∧ j ≠ find_free_voice s.voices ∧
          heldVoice s.voices j = true) →
        (note_on e s n vel).lfo = s.lfo)
    ∧ (∀ m i, firstIdx (noteOffMatch m) s.voices = some i →
        ((∀ j, j < 6 → heldVoice (note_off s m).voices j = false) →
          (note_off s m).lfo = LFOState.shut)
        ∧ ((∃ j, j < 6 ∧ heldVoice (note_off s m).voices j = true) →
          (note_off s m).lfo = s.lfo)) := by
  have hvi : find_free_voice s.voices < s.voices.length :=
    find_free_voice_lt s.voices (by omega)
  have hassign : ∀ j, j < 6 → j ≠ find_free_voice s.voices →
      heldVoice (s.voices.set (find_free_voice s.voices)
        (note_on_assigned e s n vel)) j = heldVoice s.voices j := by
    intro j _ hj
    unfold heldVoice
    rw [getD_set_ne _ _ _ _ _ (fun hh => hj hh.symm)]
  have hnewv : heldVoice (s.voices.set (find_free_voice s.voices)
      (note_on_assigned e s n vel)) (find_free_voice s.voices) = false := by
    unfold heldVoice
    rw [getD_set_lt _ _ _ _ hvi, hrel]
    simp
  have hlen' : (s.voices.set (find_free_voice s.voices)
      (note_on_assigned e s n vel)).length = 6 := by
    rw [List.length_set]
    exact hlen
  have hiff : has_unreleased_voices
      { s with voices := (s.voices.set (find_free_voice s.voices)
          (note_on_assigned e s n vel)) } = true
      ↔ ∃ j, j < 6 ∧ j ≠ find_free_voice s.voices ∧
          heldVoice s.voices j = true := by
    rw [has_unreleased_iff]
    constructor
    · rintro ⟨j, hj, hp⟩
      rw [hlen'] at hj
      by_cases hje : j = find_free_voice s.voices
      · subst hje
        rw [hnewv] at hp
        exact absurd hp (by simp)
      · rw [hassign j hj hje] at hp
        exact ⟨j, hj, hje, hp⟩
    · rintro ⟨j, hj, hje, hp⟩
      refine ⟨j, by rwa [hlen'], ?_⟩
      rw [hassign j hj hje]
      exact hp
  refine ⟨fun hnone => ?_, fun hsome => ?_, fun m i hi => ?_⟩
  · rw [note_on_lfo]
    rw [if_pos]
    refine ⟨hmode, fun hc => ?_⟩
    obtain ⟨j, hj, hje, hp⟩ := hiff.mp hc
    rw [hnone j hj hje] at hp
    exact absurd hp (by simp)
  · rw [note_on_lfo]
    rw [if_neg]
    rintro ⟨_, hc⟩
    exact hc (hiff.mpr hsome)
  · have hvoices := note_off_voices_of_some s m i hi
    have hiff2 : has_unreleased_voices
        { s with voices := (s.voices.set i
            ((s.voices.getD i defaultVoice).mapGoverningEnv envNoteOff)) } = true
        ↔ ∃ j, j < 6 ∧ heldVoice (note_off s m).voices j = true := by
      rw [has_unreleased_iff, hvoices]
      constructor
      · rintro ⟨j, hj, hp⟩
        rw [List.length_set, hlen] at hj
        exact ⟨j, hj, hp⟩
      · rintro ⟨j, hj, hp⟩
        exact ⟨j, by rw [List.length_set, hlen]; exact hj, hp⟩
    constructor
    · intro hnone
      rw [note_off_lfo_of_some s m i hi, if_pos]
      refine ⟨hmode, fun hc => ?_⟩
      obtain ⟨j, hj, hp⟩ := hiff2.mp hc
      rw [hnone j hj] at hp
      exact absurd hp (by simp)
    · intro hsome
      rw [note_off_lfo_of_some s m i hi, if_neg]
      rintro ⟨_, hc⟩
      exact hc (hiff2.mpr hsome)
/- note: hmode and the two branch conclusions pin the LFO transitions. -/

/-- The engine state of the C7 counterexample: note 60 is started in
envelope mode, the amplitude path is switched to gate mode mid-note (the
voice then dies at the next rendered block, with its *normal* envelope
left un-reset in Attack, per render_voice lines 753-761), and the mode
is switched back.  Slot 0 is now unassigned but its normal envelope
still reports not-released. -/
def c7Engine : Engine :=
  v2_set_param
    (render_block_step id id
      (v2_set_param (note_on id initEngine 60 (1/2)) "vca_type" 1))
    "vca_type" 0

/-- Counterexample to C7 as stated: on `c7Engine` (key-trigger mode), no
other voice is held at the moment of the note-on — every slot except the
one about to be assigned is inactive — yet the note-on does **not**
trigger the LFO, because the freshly assigned slot inherits a stale
unreleased envelope from the voice that previously died in that slot,
and the trigger check (run after the slot assignment, before the
envelope restart) counts the new slot itself as held. -/
theorem C7_counterexample :
    c7Engine.lfoMode = 1
    ∧ (∀ j, j < 6 → j ≠ find_free_voice c7Engine.voices →
        heldVoice c7Engine.voices j = false)
    ∧ (note_on id c7Engine 61 1).lfo ≠ LFOState.trigger
    ∧ (note_on id c7Engine 61 1).lfo = c7Engine.lfo := by
  refine ⟨by decide, by decide, by decide, by decide⟩

/-- Witness for C7 (amended): the very first note-on on a fresh engine
(no other voice held, assigned slot's envelope idle hence released)
starts the LFO ramp from 0. -/
theorem C7_witness :
    initEngine.lfoMode = 1
    ∧ (note_on_assigned id initEngine 60 1).isReleased = true
    ∧ (note_on id initEngine 60 1).lfo = LFOState.trigger := by
  have h := C7_lfo_key_trigger id initEngine (by decide) (by decide) 60 1
    (by decide)
  exact ⟨by decide, by decide, h.1 (by decide)⟩

/- ===================================================================
   C4: range clamping of parameter writes
   =================================================================== -/

theorem apply_param_params_length (s : Engine) (idx : ℕ) (v : ℚ) :
    (apply_param s idx v).params.length = s.params.length := by
  rw [apply_param]
  split
  · exact List.length_set s.params idx v
  · rfl

theorem apply_param_params_of_ne (s : Engine) (idx : ℕ) (v : ℚ) (i : ℕ)
    (h : idx ≠ i) :
    (apply_param s idx v).params.getD i 0 = s.params.getD i 0 := by
  rw [apply_param]
  split
  · exact getD_set_ne _ _ _ _ _ h
  · rfl

theorem apply_param_params_self (s : Engine) (idx : ℕ) (v : ℚ)
    (h26 : idx < kHeraNumParameters) (hlen : idx < s.params.length) :
    (apply_param s idx v).params.getD idx 0 = v := by
  rw [apply_param, if_pos h26]
  exact getD_set_lt _ _ _ _ hlen

theorem restore_params_length (record : List (String × ℚ)) :
    ∀ (defs : List PDef) (s : Engine),
      (restore_params record s defs).params.length = s.params.length
  | [], s => rfl
  | d :: rest, s => by
    rw [restore_params]
    cases json_get_number record d.key with
    | none => exact restore_params_length record rest s
    | some f =>
      rw [restore_params_length record rest, apply_param_params_length]

theorem restore_params_untouched (record : List (String × ℚ)) (i : ℕ) :
    ∀ (defs : List PDef) (s : Engine), (∀ d' ∈ defs, d'.index ≠ i) →
      (restore_params record s defs).params.getD i 0 = s.params.getD i 0
  | [], s => by
    intro _
    rfl
  | d :: rest, s => by
    intro h
    rw [restore_params]
    have hrest : ∀ d' ∈ rest, d'.index ≠ i :=
      fun d' hd' => h d' (List.mem_cons_of_mem d hd')
    cases json_get_number record d.key with
    | none => exact restore_params_untouched record i rest s hrest
    | some f =>
      rw [restore_params_untouched record i rest _ hrest]
      exact apply_param_params_of_ne _ _ _ _ (h d (List.mem_cons_self d rest))

theorem restore_params_getD (record : List (String × ℚ)) (d : PDef) (f : ℚ)
    (hf : json_get_number record d.key = some f)
    (h26 : d.index < kHeraNumParameters) :
    ∀ (defs : List PDef) (s : Engine), d ∈ defs →
      (defs.map (fun x => x.index)).Nodup →
      d.index < s.params.length →
      (restore_params record s defs).params.getD d.index 0
        = clampQ d.minVal d.maxVal f
  | [], s => by
    intro h
    exact absurd h (List.not_mem_nil d)
  | d0 :: rest, s => by
    intro hmem hnodup hlen
    rw [List.map_cons, List.nodup_cons] at hnodup
    obtain ⟨hnotin, hnodup'⟩ := hnodup
    rcases List.mem_cons.mp hmem with heq | hmem'
    · subst heq
      rw [restore_params, hf]
      have hrest : ∀ d' ∈ rest, d'.index ≠ d.index := by
        intro d' hd' hcon
        exact hnotin (hcon ▸ List.mem_map_of_mem (fun x => x.index) hd')
      rw [restore_params_untouched record d.index rest _ hrest]
      exact apply_param_params_self _ _ _ h26 hlen
    · rw [restore_params]
      cases json_get_number record d0.key with
      | none => exact restore_params_getD record d f hf h26 rest s hmem' hnodup' hlen
      | some f0 =>
        refine restore_params_getD record d f hf h26 rest _ hmem' hnodup' ?_
        rw [apply_param_params_length]
        exact hlen

theorem apply_preset_params_length (vals : List ℚ) (s : Engine) :
    ∀ (n : ℕ), (apply_preset_params vals s n).params.length = s.params.length
  | 0 => rfl
  | n + 1 => by
    rw [apply_preset_params, apply_param_params_length,
      apply_preset_params_length vals s n]

theorem apply_preset_params_getD (vals : List ℚ) (s : Engine) :
    ∀ (n : ℕ) (i : ℕ), i < n → n ≤ kHeraNumParameters →
      i < s.params.length →
      (apply_preset_params vals s n).params.getD i 0 = vals.getD i 0
  | 0, i => by omega
  | n + 1, i => by
    intro hi hn hlen
    rw [apply_preset_params]
    by_cases hin : i = n
    · subst hin
      refine apply_param_params_self _ _ _ (by omega) ?_
      rw [apply_preset_params_length]
      exact hlen
    · rw [apply_param_params_of_ne _ _ _ _ (fun h => hin h.symm)]
      exact apply_preset_params_getD vals s n i (by omega) (by omega) hlen

theorem apply_preset_length (s : Engine) (idx : ℤ) :
    (apply_preset s idx).params.length = s.params.length := by
  rw [apply_preset]
  split
  · rw [apply_preset_params_length]
  · rfl

theorem restore_preset_stage_params_length (inst : Engine)
    (record : List (String × ℚ)) :
    (restore_preset_stage inst record).params.length = inst.params.length := by
  rw [restore_preset_stage]
  cases json_get_number record "preset" with
  | none => rfl
  | some f =>
    dsimp only
    split
    · exact apply_preset_length inst (truncQ f)
    · rfl

theorem restore_octave_stage_params (inst : Engine)
    (record : List (String × ℚ)) :
    (restore_octave_stage inst record).params = inst.params := by
  rw [restore_octave_stage]
  cases json_get_number record "octave_transpose" with
  | none => rfl
  | some f => rfl

/-- Static catalog facts. -/
theorem paramDefs_index_lt : ∀ d ∈ paramDefs, d.index < kHeraNumParameters := by
  decide

theorem paramDefs_index_nodup : (paramDefs.map (fun x => x.index)).Nodup := by
  decide

theorem paramDefs_min_le_max : ∀ d ∈ paramDefs, d.minVal ≤ d.maxVal := by
  decide

theorem paramDefs_key_reserved : ∀ d ∈ paramDefs,
    d.key ≠ "preset" ∧ d.key ≠ "volume" ∧ d.key ≠ "octave_transpose"
      ∧ d.key ≠ "all_notes_off" := by
  decide

theorem paramDefs_find_self : ∀ d ∈ paramDefs,
    paramDefs.find? (fun d0 => d0.key = d.key) = some d := by
  decide

theorem clampQ_mem (lo hi v : ℚ) (h : lo ≤ hi) :
    lo ≤ clampQ lo hi v ∧ clampQ lo hi v ≤ hi := by
  rw [clampQ]
  split_ifs with h1 h2
  · exact ⟨le_refl lo, h⟩
  · exact ⟨h, le_refl hi⟩
  · exact ⟨le_of_not_lt h1, le_of_not_lt h2⟩

theorem v2_set_param_shadow (s : Engine) (d : PDef) (hd : d ∈ paramDefs)
    (v : ℚ) :
    v2_set_param s d.key v = apply_param s d.index (clampQ d.minVal d.maxVal v) := by
  obtain ⟨h1, h2, h3, h4⟩ := paramDefs_key_reserved d hd
  rw [v2_set_param, if_neg h1, if_neg h2, if_neg h3, if_neg h4,
    set_shadow_param, paramDefs_find_self d hd]

/-- **C4 (amended).** Writes through the named-parameter interface and
through state restore are range-clamped to the catalog entry before
being stored and distributed; preset application, in contrast,
distributes the preset's stored values to the parameter store without
any clamping. -/
theorem C4_param_clamping (s : Engine) (d : PDef) (hd : d ∈ paramDefs)
    (v : ℚ) (hlen : s.params.length = kHeraNumParameters) :
    ((v2_set_param s d.key v).params.getD d.index 0
        = clampQ d.minVal d.maxVal v
      ∧ d.minVal ≤ (v2_set_param s d.key v).params.getD d.index 0
      ∧ (v2_set_param s d.key v).params.getD d.index 0 ≤ d.maxVal)
    ∧ (∀ record f, json_get_number record d.key = some f →
        (v2_restore_state s record).params.getD d.index 0
          = clampQ d.minVal d.maxVal f)
    ∧ (∀ idx : ℤ, 0 ≤ idx → idx < s.preset_count →
        (apply_preset s idx).params.getD d.index 0
          = (s.presets.getD idx.toNat []).getD d.index 0) := by
  have h26 := paramDefs_index_lt d hd
  have hmm := paramDefs_min_le_max d hd
  refine ⟨?_, fun record f hf => ?_, fun idx h0 hcount => ?_⟩
  · have hmain : (v2_set_param s d.key v).params.getD d.index 0
        = clampQ d.minVal d.maxVal v := by
      rw [v2_set_param_shadow s d hd v]
      exact apply_param_params_self _ _ _ h26 (by omega)
    obtain ⟨hlo, hhi⟩ := clampQ_mem d.minVal d.maxVal v hmm
    exact ⟨hmain, by rw [hmain]; exact hlo, by rw [hmain]; exact hhi⟩
  · rw [v2_restore_state]
    apply restore_params_getD record d f hf h26 paramDefs _ hd
      paramDefs_index_nodup
    rw [restore_octave_stage_params, restore_preset_stage_params_length]
    omega
  · rw [apply_preset, if_pos ⟨h0, hcount⟩]
    exact apply_preset_params_getD _ _ kHeraNumParameters d.index h26
      (le_refl _) (show d.index < s.params.length by omega)

/-- A preset whose stored saw-level value (parameter index 4, catalog
range [0,1]) is 5 — preset files are parsed with plain `atof` and never
range-checked. -/
def c4Preset : List ℚ :=
  [ 1/2, 0, 1/2, 0, 5, 0, 0, 0, 1, 0,
    1/2, 0, 0, 0, 0, 0, 0, 0, 0, 0,
    1, 0, 0, 0, 0, 0 ]

/-- An engine with that preset loaded as preset 0. -/
def c4Engine : Engine :=
  { initEngine with presets := [c4Preset], preset_count := 1 }

/-- Counterexample to C4 as stated: applying the preset stores the raw
value 5 into the `saw_level` slot of the parameter store, far outside
its catalog range [0,1] — the preset-application path performs no
clamping. -/
theorem C4_counterexample :
    (⟨"saw_level", 4, 0, 1⟩ : PDef) ∈ paramDefs
    ∧ (apply_preset c4Engine 0).params.getD 4 0 = 5
    ∧ ¬((apply_preset c4Engine 0).params.getD 4 0 ≤ 1) := by
  refine ⟨by decide, by decide, by decide⟩

/-- Witness for C4 (amended): the named write `saw_level := 5` on a
fresh engine is stored clamped to 1, inside the catalog range. -/
theorem C4_witness :
    (v2_set_param initEngine "saw_level" 5).params.getD 4 0 = clampQ 0 1 5
    ∧ (0 : ℚ) ≤ (v2_set_param initEngine "saw_level" 5).params.getD 4 0
    ∧ (v2_set_param initEngine "saw_level" 5).params.getD 4 0 ≤ 1 := by
  have h := (C4_param_clamping initEngine ⟨"saw_level", 4, 0, 1⟩ (by decide) 5
    (by decide)).1
  exact ⟨h.1, h.2.1, h.2.2⟩

/- ===================================================================
   C9: state snapshot round-trip
   =================================================================== -/

theorem apply_param_current_preset (s : Engine) (idx : ℕ) (v : ℚ) :
    (apply_param s idx v).current_preset = s.current_preset := by
  rw [apply_param]
  split <;> rfl

theorem apply_param_octave (s : Engine) (idx : ℕ) (v : ℚ) :
    (apply_param s idx v).octave_transpose = s.octave_transpose := by
  rw [apply_param]
  split <;> rfl

theorem restore_params_current_preset (record : List (String × ℚ)) :
    ∀ (defs : List PDef) (s : Engine),
      (restore_params record s defs).current_preset = s.current_preset
  | [], s => rfl
  | d :: rest, s => by
    rw [restore_params]
    cases json_get_number record d.key with
    | none => exact restore_params_current_preset record rest s
    | some f =>
      rw [restore_params_current_preset record rest, apply_param_current_preset]

theorem restore_params_octave (record : List (String × ℚ)) :
    ∀ (defs : List PDef) (s : Engine),
      (restore_params record s defs).octave_transpose = s.octave_transpose
  | [], s => rfl
  | d :: rest, s => by
    rw [restore_params]
    cases json_get_number record d.key with
    | none => exact restore_params_octave record rest s
    | some f =>
      rw [restore_params_octave record rest, apply_param_octave]

theorem restore_octave_stage_current (inst : Engine)
    (record : List (String × ℚ)) :
    (restore_octave_stage inst record).current_preset = inst.current_preset := by
  rw [restore_octave_stage]
  cases json_get_number record "octave_transpose" <;> rfl

theorem apply_preset_params_current (vals : List ℚ) (s : Engine) :
    ∀ (n : ℕ), (apply_preset_params vals s n).current_preset = s.current_preset
  | 0 => rfl
  | n + 1 => by
    rw [apply_preset_params, apply_param_current_preset,
      apply_preset_params_current vals s n]

theorem apply_preset_current (s : Engine) (idx : ℤ)
    (h : 0 ≤ idx ∧ idx < s.preset_count) :
    (apply_preset s idx).current_preset = idx := by
  rw [apply_preset, if_pos h, apply_preset_params_current]

theorem truncQ_intCast (n : ℤ) : truncQ ((n : ℤ) : ℚ) = n := by
  rw [truncQ]
  split_ifs with h
  · exact Int.floor_intCast n
  · have hcast : (-(n : ℚ)) = ((-n : ℤ) : ℚ) := by push_cast; ring
    rw [hcast, Int.floor_intCast]
    ring

theorem clampQ_eq_self (lo hi v : ℚ) (h1 : lo ≤ v) (h2 : v ≤ hi) :
    clampQ lo hi v = v := by
  rw [clampQ]
  split_ifs with ha hb
  · linarith
  · linarith
  · rfl

theorem serialize_lookup_preset (s : Engine) :
    json_get_number (serialize_state s) "preset"
      = some ((s.current_preset : ℚ)) := rfl

theorem serialize_lookup_octave (s : Engine) :
    json_get_number (serialize_state s) "octave_transpose"
      = some ((s.octave_transpose : ℚ)) := rfl

theorem paramDefs_key_nodup : (paramDefs.map (fun x => x.key)).Nodup := by
  decide

theorem find_map_key (g : PDef → ℚ) (d : PDef) :
    ∀ (defs : List PDef), d ∈ defs → (defs.map (fun x => x.key)).Nodup →
      (defs.map (fun x => (x.key, g x))).find? (fun p => p.1 = d.key)
        = some (d.key, g d)
  | [] => fun h => absurd h (List.not_mem_nil d)
  | d0 :: rest => by
    intro hmem hnodup
    rw [List.map_cons, List.nodup_cons] at hnodup
    obtain ⟨hnotin, hnodup'⟩ := hnodup
    rcases List.mem_cons.mp hmem with heq | hmem'
    · subst heq
      rw [List.map_cons, List.find?_cons_of_pos _ (by simp)]
    · have hne : d0.key ≠ d.key := by
        intro hcon
        exact hnotin (hcon ▸ List.mem_map_of_mem (fun x => x.key) hmem')
      rw [List.map_cons, List.find?_cons_of_neg _ (by simp [hne])]
      exact find_map_key g d rest hmem' hnodup'

theorem serialize_lookup_param (s : Engine) (d : PDef) (hd : d ∈ paramDefs) :
    json_get_number (serialize_state s) d.key
      = some (q4 (s.params.getD d.index 0)) := by
  obtain ⟨h1, h2, h3, _⟩ := paramDefs_key_reserved d hd
  rw [serialize_state, json_get_number]
  rw [List.find?_cons_of_neg _ (by simp [Ne.symm h1]),
    List.find?_cons_of_neg _ (by simp [Ne.symm h2]),
    List.find?_cons_of_neg _ (by simp [Ne.symm h3]),
    find_map_key (fun x => q4 (s.params.getD x.index 0)) d paramDefs hd
      paramDefs_key_nodup]
  rfl

theorem serialize_keys (s : Engine) :
    (serialize_state s).map Prod.fst
      = "preset" :: "volume" :: "octave_transpose"
          :: paramDefs.map (fun x => x.key) := by
  rw [serialize_state]
  simp [List.map_map, Function.comp]

theorem serialize_key_count : ∀ d ∈ paramDefs,
    (("preset" :: "volume" :: "octave_transpose"
        :: paramDefs.map (fun x => x.key)).count d.key) = 1 := by
  decide

theorem restore_preset_stage_serialize_current (s : Engine) :
    (restore_preset_stage s (serialize_state s)).current_preset
      = s.current_preset := by
  rw [restore_preset_stage, serialize_lookup_preset]
  dsimp only
  rw [truncQ_intCast]
  split
  · next h => exact apply_preset_current s s.current_preset h
  · rfl

theorem restore_octave_stage_serialize (s t : Engine)
    (hoct : -3 ≤ s.octave_transpose ∧ s.octave_transpose ≤ 3) :
    (restore_octave_stage t (serialize_state s)).octave_transpose
      = s.octave_transpose := by
  rw [restore_octave_stage, serialize_lookup_octave]
  dsimp only
  rw [truncQ_intCast]
  split_ifs with ha hb
  · omega
  · omega
  · rfl

/-- **C9 (amended).** Restoring the state snapshot produced by
serialization yields an engine whose current preset index and octave
transpose equal those at serialization time, and whose full parameter
set equals it as well *provided* every stored parameter value is within
its catalog range and exactly representable at the serializer's 4
decimal places (`q4 v = v`); the serialized record contains every
catalog parameter id exactly once. -/
theorem C9_state_round_trip (s : Engine)
    (hlen : s.params.length = kHeraNumParameters)
    (hoct : -3 ≤ s.octave_transpose ∧ s.octave_transpose ≤ 3)
    (hparams : ∀ d ∈ paramDefs,
      q4 (s.params.getD d.index 0) = s.params.getD d.index 0
      ∧ d.minVal ≤ s.params.getD d.index 0
      ∧ s.params.getD d.index 0 ≤ d.maxVal) :
    (∀ d ∈ paramDefs,
      (v2_restore_state s (serialize_state s)).params.getD d.index 0
        = s.params.getD d.index 0)
    ∧ (v2_restore_state s (serialize_state s)).current_preset
        = s.current_preset
    ∧ (v2_restore_state s (serialize_state s)).octave_transpose
        = s.octave_transpose
    ∧ (∀ d ∈ paramDefs, ((serialize_state s).map Prod.fst).count d.key = 1) := by
  refine ⟨fun d hd => ?_, ?_, ?_, fun d hd => ?_⟩
  · obtain ⟨hq, hlo, hhi⟩ := hparams d hd
    have h26 := paramDefs_index_lt d hd
    have hmain : (v2_restore_state s (serialize_state s)).params.getD d.index 0
        = clampQ d.minVal d.maxVal (q4 (s.params.getD d.index 0)) := by
      rw [v2_restore_state]
      apply restore_params_getD _ d _ (serialize_lookup_param s d hd) h26
        paramDefs _ hd paramDefs_index_nodup
      rw [restore_octave_stage_params, restore_preset_stage_params_length]
      omega
    rw [hmain, hq]
    exact clampQ_eq_self _ _ _ hlo hhi
  · rw [v2_restore_state, restore_params_current_preset,
      restore_octave_stage_current, restore_preset_stage_serialize_current]
  · rw [v2_restore_state, restore_params_octave]
    exact restore_octave_stage_serialize s _ hoct
  · rw [serialize_keys]
    exact serialize_key_count d hd

/-- An engine whose saw-level parameter carries five decimal places, set
through the (clamped, in-range) named-parameter interface. -/
def c9Engine : Engine := v2_set_param initEngine "saw_level" (33333/100000)

theorem initEngine_params_eval : initEngine.params = g_param_defaults := rfl

theorem c9_saw_stored : c9Engine.params.getD 4 0 = 33333/100000 := by
  have h := v2_set_param_shadow initEngine ⟨"saw_level", 4, 0, 1⟩ (by decide)
    (33333/100000)
  calc c9Engine.params.getD 4 0
      = (apply_param initEngine 4 (clampQ 0 1 (33333/100000))).params.getD 4 0 := by
        exact congrArg (fun t : Engine => t.params.getD 4 0) h
    _ = clampQ 0 1 (33333/100000) :=
        apply_param_params_self _ 4 _ (by norm_num [kHeraNumParameters])
          (by rw [initEngine_params_eval]; norm_num [g_param_defaults])
    _ = 33333/100000 := clampQ_eq_self 0 1 _ (by norm_num) (by norm_num)

theorem c9_params_length : c9Engine.params.length = kHeraNumParameters := by
  have h := v2_set_param_shadow initEngine ⟨"saw_level", 4, 0, 1⟩ (by decide)
    (33333/100000)
  calc c9Engine.params.length
      = (apply_param initEngine 4 (clampQ 0 1 (33333/100000))).params.length := by
        exact congrArg (fun t : Engine => t.params.length) h
    _ = initEngine.params.length := apply_param_params_length _ _ _
    _ = kHeraNumParameters := by rw [initEngine_params_eval]; rfl

/-- Counterexample to C9 as stated: a parameter legitimately set to
0.33333 through the named interface serializes at 4 decimal places
(`%.4f`) and restores as 0.3333 — the round-trip is not exact. -/
theorem C9_counterexample :
    c9Engine.params.getD 4 0 = 33333/100000
    ∧ (v2_restore_state c9Engine (serialize_state c9Engine)).params.getD 4 0
        = 3333/10000
    ∧ (v2_restore_state c9Engine (serialize_state c9Engine)).params.getD 4 0
        ≠ c9Engine.params.getD 4 0 := by
  have hd : (⟨"saw_level", 4, 0, 1⟩ : PDef) ∈ paramDefs := by decide
  have hrt : (v2_restore_state c9Engine (serialize_state c9Engine)).params.getD 4 0
      = clampQ 0 1 (q4 (c9Engine.params.getD 4 0)) := by
    rw [v2_restore_state]
    apply restore_params_getD _ ⟨"saw_level", 4, 0, 1⟩ _
      (serialize_lookup_param c9Engine _ hd) (by norm_num [kHeraNumParameters])
      paramDefs _ hd paramDefs_index_nodup
    rw [restore_octave_stage_params, restore_preset_stage_params_length,
      c9_params_length]
    norm_num [kHeraNumParameters]
  rw [c9_saw_stored] at hrt
  have hq : q4 (33333/100000 : ℚ) = 3333/10000 := by
    rw [q4, round_eq]
    norm_num
  rw [hq] at hrt
  have hclamp : clampQ 0 1 (3333/10000 : ℚ) = 3333/10000 :=
    clampQ_eq_self 0 1 _ (by norm_num) (by norm_num)
  rw [hclamp] at hrt
  refine ⟨c9_saw_stored, hrt, ?_⟩
  rw [hrt, c9_saw_stored]
  norm_num

/-- Witness for C9 (amended): a fresh engine (all defaults are in range
and exact at 4 decimals) round-trips its saw-level parameter, preset
index and octave transpose, and its record holds each catalog id once. -/
theorem C9_witness :
    (v2_restore_state initEngine (serialize_state initEngine)).params.getD 4 0
      = initEngine.params.getD 4 0
    ∧ (v2_restore_state initEngine (serialize_state initEngine)).current_preset
      = initEngine.current_preset
    ∧ (v2_restore_state initEngine (serialize_state initEngine)).octave_transpose
      = initEngine.octave_transpose
    ∧ ((serialize_state initEngine).map Prod.fst).count "saw_level" = 1 := by
  have hparams : ∀ d ∈ paramDefs,
      q4 (initEngine.params.getD d.index 0) = initEngine.params.getD d.index 0
      ∧ d.minVal ≤ initEngine.params.getD d.index 0
      ∧ initEngine.params.getD d.index 0 ≤ d.maxVal := by
    intro d hd
    rw [initEngine_params_eval]
    fin_cases hd <;> norm_num [q4, round_eq, g_param_defaults]
  have h := C9_state_round_trip initEngine
    (by rw [initEngine_params_eval]; rfl) (by decide) hparams
  have hsaw : (⟨"saw_level", 4, 0, 1⟩ : PDef) ∈ paramDefs := by decide
  exact ⟨h.1 _ hsaw, h.2.1, h.2.2.1, h.2.2.2 _ hsaw⟩
